import Mathlib

/-!
Verification of the dust-qdrant-ecommerce-app core against its specification.

The development shallowly embeds the three core components:
  * the extraction engine of data.py (fetch_product_data and its helpers),
  * the ingestion controller of ingest.py (ingest_from_store),
  * the query normalization/dedupe engine of api.py (semantic_search).

Python dynamic values are modelled by the PyVal type; machine floats are
modelled by rationals (all float literals appearing in this code are exact);
fallible code returns Except; external collaborators (HTTP fetch, embedding
models, the vector store) are modelled as oracle parameters.
-/

/-- Model of a Python value as produced by json.loads plus the handful of
object shapes that the repository manipulates.  The `obj` constructor models
attribute-bearing objects (getattr access); `dict` models mappings keyed by
strings (the only key type produced by JSON payloads here). -/
inductive PyVal where
  | none
  | bool (b : Bool)
  | num (q : ℚ)
  | str (s : String)
  | list (items : List PyVal)
  | dict (fields : List (String × PyVal))
  | obj (attrs : List (String × PyVal))

/-- Python exception classes raised by the embedded code paths. -/
inductive PyErr where
  | attributeError
  | typeError
  | keyError
  | valueError
deriving DecidableEq

/-- Python truthiness (`bool(v)`). -/
def pyTruthy : PyVal → Bool
  | .none => false
  | .bool b => b
  | .num q => q != 0
  | .str s => s != ""
  | .list items => !items.isEmpty
  | .dict fields => !fields.isEmpty
  | .obj _ => true

/-- First binding of a key in an association list (Python dict lookup; keys
are unique in dicts built by json.loads, so first-match is exact). -/
def assocFind (fields : List (String × PyVal)) (k : String) : Option PyVal :=
  match fields with
  | [] => Option.none
  | (k', v) :: rest => if k = k' then some v else assocFind rest k

/-- Python `d.get(k)`: absent keys yield the Python None object. -/
def pyGet (fields : List (String × PyVal)) (k : String) : PyVal :=
  match assocFind fields k with
  | some v => v
  | Option.none => .none

/-- Python `d.get(k, dflt)`. -/
def pyGetD (fields : List (String × PyVal)) (k : String) (dflt : PyVal) : PyVal :=
  match assocFind fields k with
  | some v => v
  | Option.none => dflt

/-- Python `a or b` (value-returning, truthiness-based). -/
def pyOr (a b : PyVal) : PyVal :=
  if pyTruthy a then a else b

/-- Characters stripped by Python str.strip() (ASCII whitespace; the pages
manipulated here contain no exotic Unicode space). -/
def pyIsSpace (c : Char) : Bool :=
  c == ' ' || c == '\t' || c == '\n' || c == '\x0d' || c == '\x0b' || c == '\x0c'

/-- The character-list form of Python str.strip(). -/
def pyStripChars (l : List Char) : List Char :=
  ((l.dropWhile pyIsSpace).reverse.dropWhile pyIsSpace).reverse

/-- Python str.strip(). -/
def pyStrip (s : String) : String :=
  ⟨pyStripChars s.data⟩

/-- Python s.replace(",", ""). -/
def stripCommas (s : String) : String :=
  ⟨s.data.filter (fun c => c != ',')⟩

/-- Whether the character list `sub` occurs at the head of `l`. -/
def charsHasPre : List Char → List Char → Bool
  | [], _ => true
  | _ :: _, [] => false
  | c :: cs, d :: ds => c == d && charsHasPre (cs) (ds)

/-- Whether the character list `sub` occurs anywhere in `l`. -/
def charsHasSub (sub : List Char) : List Char → Bool
  | [] => charsHasPre sub []
  | d :: ds => charsHasPre sub (d :: ds) || charsHasSub sub ds

/-- Python `sub in s` on strings. -/
def strContains (s sub : String) : Bool :=
  charsHasSub sub.data s.data

/-- Python s.lower() (ASCII case fold, sufficient for the literals used). -/
def pyLower (s : String) : String :=
  ⟨s.data.map Char.toLower⟩

/-- Python s.startswith(pre). -/
def startsWithStr (s pre : String) : Bool :=
  charsHasPre pre.data s.data

/-- Numeric value of a digit run, most significant first. -/
def natFromDigits (cs : List Char) : ℕ :=
  cs.foldl (fun n c => n * 10 + (c.toNat - 48)) 0

/-- 10 to the k (plain structural recursion so the kernel evaluates it). -/
def natPow10 : ℕ → ℕ
  | 0 => 1
  | n + 1 => natPow10 n * 10

/-- Mantissa of a Python float literal: digits with at most one dot and at
least one digit overall ("1", "1.5", ".5", "1.").  Returns the digit value
and the number of fractional digits. -/
def parseMantRaw (cs : List Char) : Option (ℕ × ℕ) :=
  let ip := cs.takeWhile (fun c => c != '.')
  let rest := cs.dropWhile (fun c => c != '.')
  let fp := match rest with
    | [] => []
    | _ :: t => t
  if (ip ++ fp).all Char.isDigit && !(ip ++ fp).isEmpty && !fp.contains '.' then
    some (natFromDigits (ip ++ fp), fp.length)
  else Option.none

/-- Exponent part of a Python float literal (after the e/E). -/
def parseExp (cs : List Char) : Option ℤ :=
  match cs with
  | [] => Option.none
  | c :: rest =>
    let neg : Bool := c == '-'
    let body := if c == '-' || c == '+' then rest else c :: rest
    if !body.isEmpty && body.all Char.isDigit then
      some (if neg then -(natFromDigits body : ℤ) else (natFromDigits body : ℤ))
    else Option.none

/-- Model of Python float(s) on strings: optional surrounding whitespace,
optional sign, decimal mantissa, optional exponent.  (The inf/nan spellings
and underscore separators accepted by CPython are not modelled; no claim
depends on them.)  Returns none where float() raises ValueError. -/
def parseFloat (s : String) : Option ℚ :=
  match pyStripChars s.data with
  | [] => Option.none
  | c :: rest =>
    let neg : Bool := c == '-'
    let body := if c == '-' || c == '+' then rest else c :: rest
    let mant := body.takeWhile (fun c => c != 'e' && c != 'E')
    let etail := body.dropWhile (fun c => c != 'e' && c != 'E')
    let expOpt : Option ℤ := match etail with
      | [] => some 0
      | _ :: et => parseExp et
    match parseMantRaw mant, expOpt with
    | some (n, k), some e =>
      let e2 : ℤ := e - (k : ℤ)
      let num : ℕ := n * natPow10 e2.toNat
      let den : ℕ := natPow10 (-e2).toNat
      some (mkRat (if neg then -(num : ℤ) else (num : ℤ)) den)
    | _, _ => Option.none

example : parseFloat "12.5" = some (mkRat 25 2) := by decide
example : parseFloat "-5" = some (mkRat (-5) 1) := by decide
example : parseFloat "1,2" = Option.none := by decide
example : parseFloat " 3. " = some (mkRat 3 1) := by decide
example : parseFloat ".5" = some (mkRat 1 2) := by decide
example : parseFloat "1e2" = some (mkRat 100 1) := by decide
example : parseFloat "" = Option.none := by decide
example : parseFloat "." = Option.none := by decide
example : pyStrip "  a b " = "a b" := by decide
example : strContains "https://x/icon.png" "icon" = true := by decide
example : strContains "https://x/img.png" "icon" = false := by decide
example : pyLower "PRODUCT Page" = "product page" := by decide

/-! ### data.py — structured-data (LD+JSON) discovery -/

/-- `isinstance(t, str) and "product" in t.lower()` applied to an `@type`
value (branch used for top-level lists and dicts in parse_ld_json). -/
def typeHasProduct (v : PyVal) : Bool :=
  match v with
  | .str t => strContains (pyLower t) "product"
  | _ => false

/-- One step of the list branch of parse_ld_json: `item.get("@type", "")`
raises AttributeError on a non-dict item (caught per tag by the caller). -/
def ldListScan : List PyVal → Except PyErr (Option PyVal)
  | [] => .ok Option.none
  | item :: rest =>
    match item with
    | .dict d => if typeHasProduct (pyGet d "@type") then .ok (some (.dict d)) else ldListScan rest
    | _ => .error .attributeError

/-- `"product" in (item.get("@type", "") or "").lower()` for one `@graph`
element: raises on a non-dict item or on a truthy non-string type. -/
def graphTypeMatch (item : PyVal) : Except PyErr Bool :=
  match item with
  | .dict d =>
    match pyOr (pyGetD d "@type" (.str "")) (.str "") with
    | .str s => .ok (strContains (pyLower s) "product")
    | _ => .error .attributeError
  | _ => .error .attributeError

/-- Scan of a `@graph` list in parse_ld_json. -/
def ldGraphScan : List PyVal → Except PyErr (Option PyVal)
  | [] => .ok Option.none
  | item :: rest =>
    match graphTypeMatch item with
    | .error e => .error e
    | .ok true => .ok (some item)
    | .ok false => ldGraphScan rest

/-- Processing of one parsed ld+json script body: top-level list, product
dict, or dict with an `@graph` list; any other shape yields no candidate. -/
def ldTagCandidate (data : PyVal) : Except PyErr (Option PyVal) :=
  match data with
  | .list items => ldListScan items
  | .dict d =>
    if typeHasProduct (pyGet d "@type") then .ok (some (.dict d))
    else
      match assocFind d "@graph" with
      | some (.list items) => ldGraphScan items
      | _ => .ok Option.none
  | _ => .ok Option.none

/-- parse_ld_json: first product-like object over the page's ld+json
scripts.  A script is given as the result of json.loads on its text
(Option.none models empty text or a JSON parse failure); any exception
while processing a tag is caught and the scan continues with the next tag. -/
def parse_ld_json : List (Option PyVal) → Option PyVal
  | [] => Option.none
  | Option.none :: rest => parse_ld_json rest
  | some data :: rest =>
    match ldTagCandidate data with
    | .error _ => parse_ld_json rest
    | .ok (some v) => some v
    | .ok Option.none => parse_ld_json rest

/-- extract_price_from_ld: numeric offer price.  `float(str(p).replace(",",
""))` round-trips exactly on numbers, parses strings after comma removal,
and raises (caught, yielding None) on every other shape. -/
def extract_price_from_ld (ld : Option PyVal) : Option ℚ :=
  match ld with
  | some (.dict d) =>
    if pyTruthy (.dict d) then
      match assocFind d "offers" with
      | some (.dict offers) =>
        match pyGet offers "price" with
        | .none => Option.none
        | .num q => some q
        | .str s => parseFloat (stripCommas s)
        | _ => Option.none
      | _ => Option.none
    else Option.none
  | _ => Option.none

/-- extract_images_from_ld: `ld.get("image") or ld.get("images") or []`,
with a bare string coerced to a one-element list and every other shape
returned verbatim. -/
def extract_images_from_ld (ld : Option PyVal) : PyVal :=
  match ld with
  | some (.dict d) =>
    if pyTruthy (.dict d) then
      match pyOr (pyGet d "image") (pyOr (pyGet d "images") (.list [])) with
      | .str s => .list [.str s]
      | v => v
    else .list []
  | _ => .list []

/-! ### data.py — page abstraction and the remaining extraction helpers

A fetched, parsed page is abstracted by `Doc`: the parse results of its
ld+json scripts, the content attributes of its social-meta tags, the text of
the elements matched by the title/description selector groups, the element
texts keyed by each price selector, its img tags, and its raw markup (used
only by the free-text regex price scan). -/

/-- One img tag: the src-like attributes read by the image fallback. -/
structure ImgTag where
  src : Option String
  dataSrc : Option String
  dataLazySrc : Option String

/-- Abstraction of a fetched page after HTML parsing. -/
structure Doc where
  ldScripts : List (Option PyVal)
  ogTitle : Option String
  ogDesc : Option String
  ogImage : Option String
  titleSel : Option String
  descSel : Option String
  priceSelTexts : List (String × String)
  imgTags : List ImgTag
  rawHtml : String

/-- extract_og: builds the meta dict, keeping a key only when the tag exists
and its content attribute is truthy. -/
def extract_og (doc : Doc) : List (String × PyVal) :=
  (match doc.ogTitle with
    | some s => if s ≠ "" then [("title", PyVal.str s)] else []
    | Option.none => []) ++
  (match doc.ogDesc with
    | some s => if s ≠ "" then [("description", PyVal.str s)] else []
    | Option.none => []) ++
  (match doc.ogImage with
    | some s => if s ≠ "" then [("images", PyVal.list [PyVal.str s])] else []
    | Option.none => [])

/-- The character class of the regex `[\d\.,]`. -/
def numRunClass (c : Char) : Bool :=
  c.isDigit || c == '.' || c == ','

/-- Leftmost maximal run matched by `([\d\.,]+)` (re.search semantics). -/
def firstNumRun : List Char → Option (List Char)
  | [] => Option.none
  | c :: rest =>
    if numRunClass c then some (c :: rest.takeWhile numRunClass)
    else firstNumRun rest

/-- The literal CSS selector list of extract_price_by_selectors. -/
def priceSelectors : List String :=
  [".product-single__price", ".price", ".product-price", ".price__regular", ".price--large",
   ".money", ".product__price", ".variant__price", ".price-item--regular", ".price-item--sale"]

/-- soup.select_one for a price selector, modelled by lookup in the per-page
table of selector → element text. -/
def assocFindStr (table : List (String × String)) (k : String) : Option String :=
  match table with
  | [] => Option.none
  | (k', v) :: rest => if k = k' then some v else assocFindStr rest k

/-- Inner loop of extract_price_by_selectors: first selector whose element
text, with commas removed, contains a numeric token that float() accepts;
a float() failure falls through to the next selector. -/
def priceSelGo (doc : Doc) : List String → Option ℚ
  | [] => Option.none
  | sel :: rest =>
    match assocFindStr doc.priceSelTexts sel with
    | some text =>
      match firstNumRun (stripCommas text).data with
      | some run =>
        match parseFloat ⟨run⟩ with
        | some q => some q
        | Option.none => priceSelGo doc rest
      | Option.none => priceSelGo doc rest
    | Option.none => priceSelGo doc rest

/-- extract_price_by_selectors. -/
def extract_price_by_selectors (doc : Doc) : Option ℚ :=
  priceSelGo doc priceSelectors

/-! ### data.py — raw-markup regex price scan (extract_price_from_js) -/

/-- Word characters of the regex `\w` (re.ASCII view is enough here). -/
def isWordChar (c : Char) : Bool :=
  c.isDigit || ('a' ≤ c && c ≤ 'z') || ('A' ≤ c && c ≤ 'Z') || c == '_'

/-- Match a literal character list at the head, returning the rest. -/
def dropLit : List Char → List Char → Option (List Char)
  | [], cs => some cs
  | _ :: _, [] => Option.none
  | p :: ps, c :: cs => if c = p then dropLit ps cs else Option.none

/-- The group capture `([\d\.,]+)` at the head of the remaining input. -/
def numGroupAt (l : List Char) : Option (List Char) :=
  match l with
  | c :: rest => if numRunClass c then some (c :: rest.takeWhile numRunClass) else Option.none
  | [] => Option.none

/-- Attempt of the regex `"price"\s*:\s*"?([\d\.,]+)"?` at one position,
returning the captured group. -/
def match1At (cs : List Char) : Option (List Char) :=
  match dropLit "\"price\"".data cs with
  | Option.none => Option.none
  | some cs =>
    match cs.dropWhile pyIsSpace with
    | ':' :: cs =>
      let cs := cs.dropWhile pyIsSpace
      let cs := match cs with
        | '"' :: t => t
        | t => t
      numGroupAt cs
    | _ => Option.none

/-- re.search for the first pattern: leftmost position where it matches. -/
def searchJs1 : List Char → Option (List Char)
  | [] => Option.none
  | c :: rest =>
    match match1At (c :: rest) with
    | some g => some g
    | Option.none => searchJs1 rest

/-- Attempt of the regex `price\W*:\W*([\d\.,]+)` at one position
(simplified backtracking: `\W*` runs to the first colon, then to the first
character able to start the group; the full greedy/backtrack search of the
regex engine differs only on markup no claim exercises). -/
def match2At (cs : List Char) : Option (List Char) :=
  match dropLit "price".data cs with
  | Option.none => Option.none
  | some cs =>
    match cs.dropWhile (fun c => !isWordChar c && c != ':') with
    | ':' :: cs =>
      numGroupAt (cs.dropWhile (fun c => !isWordChar c && !numRunClass c))
    | _ => Option.none

/-- re.search for the second pattern. -/
def searchJs2 : List Char → Option (List Char)
  | [] => Option.none
  | c :: rest =>
    match match2At (c :: rest) with
    | some g => some g
    | Option.none => searchJs2 rest

/-- extract_price_from_js: first pattern, then (also after a float()
failure on its group) the second pattern. -/
def extract_price_from_js (html : String) : Option ℚ :=
  let r1 : Option ℚ :=
    match searchJs1 html.data with
    | some g => parseFloat ⟨g.filter (fun c => c != ',')⟩
    | Option.none => Option.none
  match r1 with
  | some q => some q
  | Option.none =>
    match searchJs2 html.data with
    | some g => parseFloat ⟨g.filter (fun c => c != ',')⟩
    | Option.none => Option.none

example : extract_price_from_js "var x = \x7b\"price\": \"1,299.00\"\x7d;" = some (mkRat 1299 1) := by decide
example : extract_price_from_js "price: 45.5" = some (mkRat 91 2) := by decide
example : extract_price_from_js "no numbers here" = Option.none := by decide

/-! ### data.py — URL resolution and the image fallback -/

/-- Split a character list at the first occurrence of `sub`, returning the
parts before and after it. -/
def splitOnSub (sub : List Char) : List Char → Option (List Char × List Char)
  | [] => match sub with
    | [] => some ([], [])
    | _ :: _ => Option.none
  | c :: rest =>
    match dropLit sub (c :: rest) with
    | some after => some ([], after)
    | Option.none =>
      match splitOnSub sub rest with
      | some (b, a) => some (c :: b, a)
      | Option.none => Option.none

/-- Model of urllib.parse.urljoin for the URL shapes exercised here:
absolute http(s) references pass through; scheme-relative, root-relative
and relative references are resolved against the base.  (Query/fragment
handling and dot-segment normalization are not modelled; no claim depends
on them.) -/
def urljoin (base rel : String) : String :=
  if rel = "" then base
  else if startsWithStr rel "http://" || startsWithStr rel "https://" then rel
  else
    match splitOnSub "://".data base.data with
    | Option.none => rel
    | some (scheme, rest) =>
      let host := rest.takeWhile (fun c => c != '/')
      let path := rest.dropWhile (fun c => c != '/')
      if startsWithStr rel "//" then ⟨scheme⟩ ++ ":" ++ rel
      else if startsWithStr rel "/" then ⟨scheme⟩ ++ "://" ++ ⟨host⟩ ++ rel
      else
        let dir := (path.reverse.dropWhile (fun c => c != '/')).reverse
        let dir := if dir.isEmpty then ['/'] else dir
        ⟨scheme⟩ ++ "://" ++ ⟨host⟩ ++ ⟨dir⟩ ++ rel

example : urljoin "https://shop.ex/p/x" "/i/a.jpg" = "https://shop.ex/i/a.jpg" := by decide
example : urljoin "https://shop.ex/p/x" "i/a.jpg" = "https://shop.ex/p/i/a.jpg" := by decide
example : urljoin "https://shop.ex/p/x" "https://cdn.ex/b.png" = "https://cdn.ex/b.png" := by decide

/-- `img.get("src") or img.get("data-src") or img.get("data-lazy-src")` on
Option String with Python truthiness. -/
def strOr (a b : Option String) : Option String :=
  match a with
  | some s => if s ≠ "" then a else b
  | Option.none => b

/-- The src chosen for one img tag; none models `if not src: continue`. -/
def imgSrc (t : ImgTag) : Option String :=
  match strOr (strOr t.src t.dataSrc) t.dataLazySrc with
  | some u => if u = "" then Option.none else some u
  | Option.none => Option.none

/-- Order-preserving deduplication with a seen-set accumulator
(`[x for x in imgs if not (x in seen or seen.add(x))]`). -/
def dedupeStringsGo (seen : List String) : List String → List String
  | [] => []
  | x :: rest =>
    if x ∈ seen then dedupeStringsGo seen rest
    else x :: dedupeStringsGo (x :: seen) rest

/-- Order-preserving deduplication of the image URL list. -/
def dedupeStrings (l : List String) : List String :=
  dedupeStringsGo [] l

/-- The joined, icon/sprite-filtered image URL list collected from img tags
(lines 195-204 of data.py, before deduplication). -/
def imgFallbackKept (product_url : String) (doc : Doc) : List String :=
  ((doc.imgTags.filterMap imgSrc).map (urljoin product_url)).filter
    (fun full => !(strContains full "icon") && !(strContains full "sprite"))

/-! ### data.py — fetch_product_data -/

/-- The extracted product record (title/description already stripped,
price a float-or-None, images whatever value the pipeline produced). -/
structure ProductRecord where
  product_url : String
  title : String
  description : String
  price : Option ℚ
  images : PyVal

/-- `ld.get("name") or ld.get("headline")`. -/
def ldTitle (d : List (String × PyVal)) : PyVal :=
  pyOr (pyGet d "name") (pyGet d "headline")

/-- `ld.get("description") or ld.get("review", {}).get("reviewBody")`: the
second operand is evaluated only when the first is falsy, and raises
AttributeError when the review value is not a mapping. -/
def ldDescription (d : List (String × PyVal)) : Except PyErr PyVal :=
  let v := pyGet d "description"
  if pyTruthy v then .ok v
  else
    match pyGetD d "review" (.dict []) with
    | .dict r => .ok (pyGet r "reviewBody")
    | _ => .error .attributeError

/-- The images value after the social-meta stage, as a function of the
value the structured-data stage produced. -/
def imagesAfterOg (doc : Doc) (i0 : PyVal) : PyVal :=
  if !(extract_og doc).isEmpty then pyOr i0 (pyGetD (extract_og doc) "images" (.list [])) else i0

/-- `(v or "").strip()`: raises AttributeError on a truthy non-string. -/
def orEmptyStrip (v : PyVal) : Except PyErr String :=
  match pyOr v (.str "") with
  | .str s => .ok (pyStrip s)
  | _ => .error .attributeError

/-- The final assembly of fetch_product_data (data.py lines 209-215): the
strip() calls on `(title or "")` and `(description or "")` raise on truthy
non-string values; price and images are stored as computed. -/
def assembleRecord (product_url : String) (title2 descr2 : PyVal) (price2 : Option ℚ)
    (images2 : PyVal) : Except PyErr ProductRecord :=
  match orEmptyStrip title2 with
  | .error e => .error e
  | .ok titleS =>
    match orEmptyStrip descr2 with
    | .error e => .error e
    | .ok descrS =>
      .ok { product_url := product_url, title := titleS, description := descrS,
            price := price2, images := images2 }

/-- The stages of fetch_product_data after the structured-data stage
(data.py lines 170-215): OG fallback, selector fallbacks, the two price
fallbacks, the img-tag fallback, then the final assembly. -/
def fetchTail (product_url : String) (doc : Doc) (title0 descr0 : PyVal)
    (price0 : Option ℚ) (images0 : PyVal) : Except PyErr ProductRecord :=
  let og := extract_og doc
  let title1 := if !og.isEmpty then pyOr title0 (pyGet og "title") else title0
  let descr1 := if !og.isEmpty then pyOr descr0 (pyGet og "description") else descr0
  let images1 := if !og.isEmpty then pyOr images0 (pyGetD og "images" (.list [])) else images0
  let title2 := if pyTruthy title1 then title1 else
    match doc.titleSel with
    | some s => .str s
    | Option.none => title1
  let descr2 := if pyTruthy descr1 then descr1 else
    match doc.descSel with
    | some s => .str s
    | Option.none => descr1
  let price1 := match price0 with
    | some q => some q
    | Option.none => extract_price_by_selectors doc
  let price2 := match price1 with
    | some q => some q
    | Option.none => extract_price_from_js doc.rawHtml
  let images2 :=
    if pyTruthy images1 then images1
    else .list ((dedupeStrings (imgFallbackKept product_url doc)).map PyVal.str)
  assembleRecord product_url title2 descr2 price2 images2

/-- fetch_product_data after a successful fetch, over the parsed page.
Mirrors data.py lines 158-215: the structured-data stage followed by
fetchTail. -/
def fetch_product_data (product_url : String) (doc : Doc) : Except PyErr ProductRecord :=
  let ld := parse_ld_json doc.ldScripts
  let ldLive := match ld with
    | some v => pyTruthy v
    | Option.none => false
  let step1 : Except PyErr (PyVal × PyVal × Option ℚ × PyVal) :=
    if ldLive then
      match ld with
      | some (.dict d) =>
        match ldDescription d with
        | .error e => .error e
        | .ok descr => .ok (ldTitle d, descr, extract_price_from_ld ld, extract_images_from_ld ld)
      | _ => .ok (.none, .none, Option.none, .list [])
    else .ok (.none, .none, Option.none, .list [])
  match step1 with
  | .error e => .error e
  | .ok (title0, descr0, price0, images0) => fetchTail product_url doc title0 descr0 price0 images0

/-- An empty page: everything degrades to empty values. -/
def emptyDoc : Doc :=
  { ldScripts := [], ogTitle := Option.none, ogDesc := Option.none, ogImage := Option.none,
    titleSel := Option.none, descSel := Option.none, priceSelTexts := [], imgTags := [],
    rawHtml := "" }

example :
    fetch_product_data "https://s.ex/p" emptyDoc =
      .ok { product_url := "https://s.ex/p", title := "", description := "",
            price := Option.none, images := .list [] } := rfl

example :
    fetch_product_data "https://s.ex/p"
      { emptyDoc with ldScripts :=
          [some (.dict [("@type", .str "Product"), ("review", .list [])])] } =
      .error .attributeError := rfl

example :
    fetch_product_data "https://s.ex/p"
      { emptyDoc with ldScripts :=
          [some (.dict [("@type", .str "Product"),
                        ("offers", .dict [("price", .str "-5")])])] } =
      .ok { product_url := "https://s.ex/p", title := "", description := "",
            price := some (mkRat (-5) 1), images := .list [] } := rfl

example :
    fetch_product_data "https://s.ex/p"
      { emptyDoc with ldScripts :=
          [some (.dict [("@type", .str "Product"), ("name", .str " Widget "),
                        ("image", .list [.str "https://cdn.ex/icon.png", .str "https://cdn.ex/a.jpg"])])] } =
      .ok { product_url := "https://s.ex/p", title := "Widget", description := "",
            price := Option.none,
            images := .list [.str "https://cdn.ex/icon.png", .str "https://cdn.ex/a.jpg"] } := rfl

example :
    fetch_product_data "https://shop.ex/p/x"
      { emptyDoc with imgTags :=
          [⟨some "/i/a.jpg", Option.none, Option.none⟩,
           ⟨Option.none, some "https://cdn.ex/icon-sm.png", Option.none⟩,
           ⟨some "/i/a.jpg", Option.none, Option.none⟩] } =
      .ok { product_url := "https://shop.ex/p/x", title := "", description := "",
            price := Option.none,
            images := .list [.str "https://shop.ex/i/a.jpg"] } := rfl

/-! ### api.py — point normalization (_extract_points, _point_to_dict) -/

/-- Python str(v) for the identifier values that occur in payloads: None
renders as "None"; container reprs are not modelled (no claim touches
them). -/
def pyStr : PyVal → String
  | .none => "None"
  | .bool b => if b then "True" else "False"
  | .str s => s
  | .num q => if q.den = 1 then toString q.num else toString q.num ++ "/" ++ toString q.den
  | .list _ => "<list>"
  | .dict _ => "<dict>"
  | .obj _ => "<object>"

/-- getattr(p, k, dflt) on an attribute-bearing object. -/
def objGetD (attrs : List (String × PyVal)) (k : String) (dflt : PyVal) : PyVal :=
  match assocFind attrs k with
  | some v => v
  | Option.none => dflt

/-- A normalized scored entry as produced by _point_to_dict: the payload
fields keep their raw payload values (absent keys become Python None). -/
structure REntry where
  id : String
  title : PyVal
  description : PyVal
  price : PyVal
  product_url : PyVal
  images : PyVal
  score : ℚ

/-- _extract_points: raw list of scored points from the response shapes
(QueryResponse objects and generic attribute-bearing objects both go
through the `points` attribute; dicts through "result" then "points";
sequences pass through; anything else yields an empty list). -/
def extract_points (resp : PyVal) : PyVal :=
  match resp with
  | .none => .list []
  | .obj attrs => pyOr (objGetD attrs "points" (.list [])) (.list [])
  | .dict d =>
    match assocFind d "result" with
    | some v => pyOr v (.list [])
    | Option.none =>
      match assocFind d "points" with
      | some v => pyOr v (.list [])
      | Option.none => .list []
  | .list l => .list l
  | _ => .list []

/-- Python iteration over the value produced by _extract_points (`for p in
raw_points`): lists iterate their items, strings their characters, dicts
their keys; other values raise TypeError. -/
def pyIter (v : PyVal) : Except PyErr (List PyVal) :=
  match v with
  | .list l => .ok l
  | .str s => .ok (s.data.map (fun c => .str (String.singleton c)))
  | .dict d => .ok (d.map (fun kv => .str kv.1))
  | _ => .error .typeError

/-- float(score or 0.0): numbers pass through, booleans coerce, strings are
parsed by float() (ValueError on failure), other shapes raise TypeError. -/
def scoreToFloat (score : PyVal) : Except PyErr ℚ :=
  let sv := if pyTruthy score then score else .num 0
  match sv with
  | .num q => .ok q
  | .bool b => .ok (if b then 1 else 0)
  | .str s =>
    match parseFloat s with
    | some q => .ok q
    | Option.none => .error .valueError
  | _ => .error .typeError

/-- _point_to_dict on one raw point.  Mirrors api.py lines 45-64 including
the short-circuit of `p.get("id") or (p.get("point") or {}).get("id")` and
the AttributeError paths on non-mapping nested values. -/
def point_to_dict (p : PyVal) : Except PyErr REntry :=
  let parts : Except PyErr (PyVal × PyVal × PyVal) :=
    match p with
    | .dict d =>
      let idFirst := pyGet d "id"
      let pidE : Except PyErr PyVal :=
        if pyTruthy idFirst then .ok idFirst
        else
          match pyOr (pyGet d "point") (.dict []) with
          | .dict pd => .ok (pyGet pd "id")
          | _ => .error .attributeError
      let score := pyGetD d "score" (.num 0)
      let payloadE : Except PyErr PyVal :=
        let p1 := pyGet d "payload"
        if pyTruthy p1 then .ok p1
        else
          match pyOr (pyGet d "point") (.dict []) with
          | .dict pd => .ok (pyOr (pyGet pd "payload") (.dict []))
          | _ => .error .attributeError
      match pidE, payloadE with
      | .error e, _ => .error e
      | _, .error e => .error e
      | .ok pid, .ok payload => .ok (pid, score, payload)
    | .obj attrs =>
      let pid := objGetD attrs "id" .none
      let score := objGetD attrs "score" (.num 0)
      let payload := pyOr (objGetD attrs "payload" .none) (.dict [])
      .ok (pid, score, payload)
    | _ =>
      .ok (.none, .num 0, .dict [])
  match parts with
  | .error e => .error e
  | .ok (pid, score, payload) =>
    match payload with
    | .dict pd =>
      match scoreToFloat score with
      | .error e => .error e
      | .ok q =>
        .ok { id := pyStr pid, title := pyGet pd "title", description := pyGet pd "description",
              price := pyGet pd "price", product_url := pyGet pd "product_url",
              images := pyGet pd "images", score := q }
    | _ => .error .attributeError

/-! ### api.py — dedupe, ranking, and semantic_search -/

/-- Hashable scalar Python values usable as dict keys in the dedupe map.
Container url values raise TypeError when used as keys (attribute objects
never occur as payload urls and are conservatively grouped with them). -/
inductive PyKey where
  | none
  | bool (b : Bool)
  | num (q : ℚ)
  | str (s : String)
deriving DecidableEq

/-- The dict key for a product_url value, none when unhashable. -/
def toKey : PyVal → Option PyKey
  | .none => some .none
  | .bool b => some (.bool b)
  | .num q => some (.num q)
  | .str s => some (.str s)
  | _ => Option.none

/-- Lookup in the dedupe map (insertion-ordered association list, the model
of a Python dict). -/
def keyFind (m : List (PyKey × REntry)) (k : PyKey) : Option REntry :=
  match m with
  | [] => Option.none
  | (k', v) :: rest => if k = k' then some v else keyFind rest k

/-- In-place update of an existing key (Python dict assignment keeps the
key's original insertion position). -/
def keyUpdate (m : List (PyKey × REntry)) (k : PyKey) (v : REntry) : List (PyKey × REntry) :=
  match m with
  | [] => [(k, v)]
  | (k', v') :: rest => if k = k' then (k, v) :: rest else (k', v') :: keyUpdate rest k v

/-- One step of the dedupe loop of semantic_search (api.py lines 107-115):
entries with a truthy product_url go to the keyed map, keeping the entry
with the strictly higher score; the rest keep their order in the fallback
list. -/
def dedupeStep (st : List (PyKey × REntry) × List REntry) (e : REntry) :
    Except PyErr (List (PyKey × REntry) × List REntry) :=
  if pyTruthy e.product_url then
    match toKey e.product_url with
    | Option.none => .error .typeError
    | some k =>
      match keyFind st.1 k with
      | Option.none => .ok (st.1 ++ [(k, e)], st.2)
      | some ex => if ex.score < e.score then .ok (keyUpdate st.1 k e, st.2) else .ok st
  else .ok (st.1, st.2 ++ [e])

/-- The dedupe loop over all normalized entries. -/
def dedupeFold (entries : List REntry) (st : List (PyKey × REntry) × List REntry) :
    Except PyErr (List (PyKey × REntry) × List REntry) :=
  match entries with
  | [] => .ok st
  | e :: rest =>
    match dedupeStep st e with
    | .error err => .error err
    | .ok st2 => dedupeFold rest st2

/-- The comparison used by `combined.sort(key=lambda x: x.get("score", 0.0),
reverse=True)`: score descending. -/
def scoreGe (a b : REntry) : Prop :=
  b.score ≤ a.score

instance : DecidableRel scoreGe :=
  fun a b => inferInstanceAs (Decidable (b.score ≤ a.score))

instance : IsTotal REntry scoreGe :=
  ⟨fun a b => le_total b.score a.score⟩

instance : IsTrans REntry scoreGe :=
  ⟨fun _ _ _ hab hbc => le_trans hbc hab⟩

/-- Combine, stable-sort by score descending, truncate (api.py lines
118-121).  Python's list.sort is stable; a stable sort is extensionally
unique, so insertion sort is an exact model. -/
def rankTruncate (m : List (PyKey × REntry)) (fallback : List REntry) (limit : ℕ) :
    List REntry :=
  (List.insertionSort scoreGe (m.map Prod.snd ++ fallback)).take limit

/-- The dedupe/combine/sort/truncate steps of semantic_search applied to a
list of already-normalized entries. -/
def normalizePipeline (entries : List REntry) (limit : ℕ) : Except PyErr (List REntry) :=
  match dedupeFold entries ([], []) with
  | .error e => .error e
  | .ok (m, fallback) => .ok (rankTruncate m fallback limit)

/-- Full normalization of a raw store response: extract the point list,
normalize each point, then dedupe/rank/truncate. -/
def normalizeResponse (resp : PyVal) (limit : ℕ) : Except PyErr (List REntry) :=
  match pyIter (extract_points resp) with
  | .error e => .error e
  | .ok raw =>
    match raw.mapM point_to_dict with
    | .error e => .error e
    | .ok entries => normalizePipeline entries limit

/-- The search request model (collection name and vector name do not affect
the normalization logic and are absorbed into the store oracle). -/
structure SearchQuery where
  query : String
  limit : ℕ

/-- The error categories surfaced by the search endpoint. -/
inductive ApiErr where
  | validation
  | embedding
  | storeQuery
  | internal (e : PyErr)
deriving DecidableEq

/-- External collaborators of the search endpoint, as oracles. -/
structure SearchEnv where
  embed : String → Except Unit (List ℚ)
  store : List ℚ → ℕ → Except Unit PyVal

/-- Trace of the remote calls a request caused. -/
structure CallTrace where
  embedCalls : List String
  storeCalls : ℕ
deriving DecidableEq

/-- semantic_search (api.py lines 76-123): validation, embedding, store
query with over-fetch max(50, limit), then normalization. -/
def semantic_search (env : SearchEnv) (sq : SearchQuery) :
    Except ApiErr (List REntry) × CallTrace :=
  if sq.query = "" ∨ pyStrip sq.query = "" then
    (.error .validation, ⟨[], 0⟩)
  else
    match env.embed sq.query with
    | .error _ => (.error .embedding, ⟨[sq.query], 0⟩)
    | .ok qvec =>
      match env.store qvec (max 50 sq.limit) with
      | .error _ => (.error .storeQuery, ⟨[sq.query], 1⟩)
      | .ok resp =>
        match normalizeResponse resp sq.limit with
        | .error e => (.error (.internal e), ⟨[sq.query], 1⟩)
        | .ok out => (.ok out, ⟨[sq.query], 1⟩)

/-! ### ingest.py — the ingestion controller -/

/-- The payload stored with each point (ingest.py lines 113-119). -/
structure IPayload where
  title : String
  description : String
  price : Option ℚ
  product_url : String
  images : PyVal

/-- A point as assembled by _build_point: named text vector, optional named
image vector, payload. -/
structure IPoint where
  id : String
  textVec : List ℚ
  imageVec : Option (List ℚ)
  payload : IPayload

/-- _build_point: the "image" slot is present only when an image vector was
produced. -/
def build_point (point_id : String) (text_vec : List ℚ) (image_vec : Option (List ℚ))
    (payload : IPayload) : IPoint :=
  { id := point_id, textVec := text_vec, imageVec := image_vec, payload := payload }

/-- BATCH_SIZE of ingest.py. -/
def BATCH_SIZE : ℕ := 16

/-- External collaborators of the ingestion run, as oracles.  upsert is the
store's success verdict for one upsert call with the given points; genId is
the uuid4 supply, indexed by how many ids were already drawn. -/
structure IngestEnv where
  fetchUrls : Except Unit (List String)
  fetchProduct : String → Except Unit (Option ProductRecord)
  embedText : String → Except Unit (List ℚ)
  embedImage : PyVal → Except Unit (List ℚ)
  upsert : List IPoint → Bool
  genId : ℕ → String

/-- Mutable state of the ingestion loop, plus the observable log: per-point
upsert failures (reported with the point id), per-item failures (reported
with the url), and the arguments of every embed_text call. -/
structure IngestState where
  batch : List IPoint
  total : ℕ
  pointFailures : List String
  itemFailures : List String
  embedTextCalls : List String
  nextId : ℕ

/-- The text selected for embedding (ingest.py lines 86-91). -/
def textToEmbed (title descr : String) : String :=
  let t0 := pyStrip (title ++ " " ++ descr)
  let t1 := if t0 ≠ "" then t0 else if title ≠ "" then title else descr
  if t1 = "" then (if title ≠ "" then title else if descr ≠ "" then descr else "product")
  else t1

/-- `imgs[0]` on the truthy images value: lists index their head, strings
their first character; indexing a dict or number raises (caught by the
per-item handler, aborting the url). -/
def firstIndex (v : PyVal) : Except PyErr PyVal :=
  match v with
  | .list (x :: _) => .ok x
  | .str s =>
    match s.data with
    | c :: _ => .ok (.str (String.singleton c))
    | [] => .error .typeError
  | _ => .error .keyError

/-- The per-point retry loop run when a batch upsert fails (ingest.py lines
140-145 and 160-165): each success increments the persisted count, each
failure is reported with the point's id. -/
def retryLoop (env : IngestEnv) : List IPoint → ℕ × List String → ℕ × List String
  | [], acc => acc
  | p :: rest, (t, fails) =>
    if env.upsert [p] then retryLoop env rest (t + 1, fails)
    else retryLoop env rest (t, fails ++ [p.id])

/-- Commit the current batch: one batched upsert, with the per-point retry
fallback on failure.  Used both for full mid-run batches and for the final
partial batch (the code duplicates the same logic at lines 131-148 and
151-165). -/
def flushBatch (env : IngestEnv) (st : IngestState) : IngestState :=
  if env.upsert st.batch then
    { st with total := st.total + st.batch.length, batch := [] }
  else
    let (t, fails) := retryLoop env st.batch (st.total, st.pointFailures)
    { st with total := t, pointFailures := fails, batch := [] }

/-- The image-vector step for one item (ingest.py lines 101-111):
`imgs = pdata.get("images") or []`, then embedding of `imgs[0]` when imgs
is truthy; an embedding failure is swallowed (text-only point), while an
indexing failure propagates to the per-item handler. -/
def imageVecOf (env : IngestEnv) (images : PyVal) : Except PyErr (Option (List ℚ)) :=
  let imgsV := if pyTruthy images then images else .list []
  if pyTruthy imgsV then
    match firstIndex imgsV with
    | .error e => .error e
    | .ok firstImg =>
      match env.embedImage firstImg with
      | .ok v => .ok (some v)
      | .error _ => .ok Option.none
  else .ok Option.none

/-- Processing of one product url (ingest.py lines 78-148): fetch, embed
text (fatal per item), embed first image (non-fatal), assemble the point,
and flush the batch when it reaches capacity.  Every failure path executes
`continue`, skipping the flush check. -/
def stepUrl (env : IngestEnv) (st : IngestState) (url : String) : IngestState :=
  match env.fetchProduct url with
  | .error _ => { st with itemFailures := st.itemFailures ++ [url] }
  | .ok Option.none => st
  | .ok (some pdata) =>
    let title := pdata.title
    let descr := pdata.description
    let tte := textToEmbed title descr
    let st := { st with embedTextCalls := st.embedTextCalls ++ [tte] }
    match env.embedText tte with
    | .error _ => { st with itemFailures := st.itemFailures ++ [url] }
    | .ok tvec =>
      match imageVecOf env pdata.images with
      | .error _ => { st with itemFailures := st.itemFailures ++ [url] }
      | .ok ivec =>
        let pid := env.genId st.nextId
        let payload : IPayload :=
          { title := title, description := descr, price := pdata.price,
            product_url := pdata.product_url, images := pdata.images }
        let point := build_point pid tvec ivec payload
        let st := { st with batch := st.batch ++ [point], nextId := st.nextId + 1 }
        if BATCH_SIZE ≤ st.batch.length then flushBatch env st else st

/-- ingest_from_store: enumerate urls (a failure aborts the run), process
each url in order, then commit any partial final batch under the same retry
policy. -/
def ingest_from_store (env : IngestEnv) : Except Unit IngestState :=
  match env.fetchUrls with
  | .error _ => .error ()
  | .ok urls =>
    let st0 : IngestState := ⟨[], 0, [], [], [], 0⟩
    let st := urls.foldl (stepUrl env) st0
    .ok (if !st.batch.isEmpty then flushBatch env st else st)

/-! ### Theorems: input validation and ingestion-side invariants -/

/-- C7: a query that is empty or whitespace-only is rejected with the
validation error before any embedding call or store query call is made: the
endpoint returns the 400 error and the remote-call trace is empty. -/
theorem search_rejects_blank_query (env : SearchEnv) (sq : SearchQuery)
    (h : pyStrip sq.query = "") :
    semantic_search env sq = (.error .validation, ⟨[], 0⟩) := by
  unfold semantic_search
  rw [if_pos (Or.inr h)]

theorem search_rejects_blank_query_witness :
    pyStrip " \t " = "" ∧
    semantic_search ⟨fun _ => .ok [], fun _ _ => .ok (.list [])⟩ ⟨" \t ", 5⟩ =
      (.error .validation, ⟨[], 0⟩) :=
  ⟨by decide, search_rejects_blank_query ⟨fun _ => .ok [], fun _ _ => .ok (.list [])⟩ ⟨" \t ", 5⟩ (by decide)⟩

/-- The embedded text is never the empty string. -/
theorem textToEmbed_ne (title descr : String) : textToEmbed title descr ≠ "" := by
  unfold textToEmbed
  by_cases h1 : (if pyStrip (title ++ " " ++ descr) ≠ "" then pyStrip (title ++ " " ++ descr)
      else if title ≠ "" then title else descr) = ""
  · rw [if_pos h1]
    by_cases h2 : title = ""
    · by_cases h3 : descr = ""
      · simp [h2, h3]
      · simp [h2, h3]
    · simp [h2]
  · rw [if_neg h1]
    exact h1

/-- flushBatch never touches the embed_text call log. -/
theorem flushBatch_embedCalls (env : IngestEnv) (s : IngestState) :
    (flushBatch env s).embedTextCalls = s.embedTextCalls := by
  unfold flushBatch
  split
  · rfl
  · rcases hr : retryLoop env s.batch (s.total, s.pointFailures) with ⟨t, fails⟩
    simp [hr]

/-- stepUrl appends at most one string to the embed_text call log, and that
string is a textToEmbed value. -/
theorem stepUrl_calls (env : IngestEnv) (st : IngestState) (url : String) :
    (stepUrl env st url).embedTextCalls = st.embedTextCalls ∨
    ∃ t d, (stepUrl env st url).embedTextCalls = st.embedTextCalls ++ [textToEmbed t d] := by
  cases hf : env.fetchProduct url with
  | error e => left; simp [stepUrl, hf]
  | ok v =>
    cases v with
    | none => left; simp [stepUrl, hf]
    | some pd =>
      right
      refine ⟨pd.title, pd.description, ?_⟩
      cases he : env.embedText (textToEmbed pd.title pd.description) with
      | error e => simp [stepUrl, hf, he]
      | ok tvec =>
        cases hi : imageVecOf env pd.images with
        | error e => simp [stepUrl, hf, he, hi]
        | ok ivec =>
          simp only [stepUrl, hf, he, hi]
          split
          · rw [flushBatch_embedCalls]
          · rfl

/-- Non-emptiness of the embed_text log is preserved along the url loop. -/
theorem foldl_embedCalls_ne (env : IngestEnv) :
    ∀ (urls : List String) (st : IngestState),
      (∀ s ∈ st.embedTextCalls, s ≠ "") →
      ∀ s ∈ (urls.foldl (stepUrl env) st).embedTextCalls, s ≠ ""
  | [], _, h => h
  | u :: urls, st, h => by
    refine foldl_embedCalls_ne env urls (stepUrl env st u) ?_
    rcases stepUrl_calls env st u with hc | ⟨t, d, hc⟩
    · rw [hc]; exact h
    · rw [hc]
      intro s hs
      rcases List.mem_append.1 hs with hs | hs
      · exact h s hs
      · rw [List.mem_singleton.1 hs]
        exact textToEmbed_ne t d

/-- C9: the ingestion controller never invokes the text-embedding function
with an empty string: every recorded embed_text argument is non-empty (even
when the extracted title and description are both empty, the "product"
fallback token is substituted first). -/
theorem ingest_embed_text_nonempty (env : IngestEnv) (st : IngestState)
    (hok : ingest_from_store env = .ok st) :
    ∀ s ∈ st.embedTextCalls, s ≠ "" := by
  unfold ingest_from_store at hok
  cases hf : env.fetchUrls with
  | error e => rw [hf] at hok; cases hok
  | ok urls =>
    rw [hf] at hok
    have hbase : ∀ s ∈ (urls.foldl (stepUrl env) ⟨[], 0, [], [], [], 0⟩).embedTextCalls, s ≠ "" :=
      foldl_embedCalls_ne env urls _ (by intro s hs; cases hs)
    have hst : st = (if !(urls.foldl (stepUrl env) ⟨[], 0, [], [], [], 0⟩).batch.isEmpty
        then flushBatch env (urls.foldl (stepUrl env) ⟨[], 0, [], [], [], 0⟩)
        else urls.foldl (stepUrl env) ⟨[], 0, [], [], [], 0⟩) := by
      cases hok; rfl
    rw [hst]
    split
    · rw [flushBatch_embedCalls]; exact hbase
    · exact hbase

/-- The environment for the C9 witness run: one url, full extraction, all
collaborators succeed. -/
def c9env : IngestEnv :=
  { fetchUrls := .ok ["https://s.ex/p1"],
    fetchProduct := fun _ => .ok (some ⟨"https://s.ex/p1", "A", "", Option.none, .list []⟩),
    embedText := fun _ => .ok [1],
    embedImage := fun _ => .ok [1],
    upsert := fun _ => true,
    genId := fun n => "pid" ++ toString n }

/-- The state the C9 witness run ends in. -/
def c9out : IngestState := ⟨[], 1, [], [], ["A"], 1⟩

theorem ingest_embed_text_nonempty_witness :
    ingest_from_store c9env = .ok c9out ∧ "A" ∈ c9out.embedTextCalls ∧ "A" ≠ "" :=
  ⟨rfl, by decide, ingest_embed_text_nonempty c9env c9out rfl "A" (by decide)⟩

/-- C10 (counterexample): a raw entry whose only key is "point" bound to the
list [1] has a missing identifier at the top level, yet normalization raises
AttributeError instead of stringifying the id to "None": the id fallback
calls .get on the truthy non-mapping nested point value. -/
theorem point_to_dict_point_list_crash :
    pyGet [("point", PyVal.list [PyVal.num 1])] "id" = PyVal.none ∧
    point_to_dict (.dict [("point", .list [.num 1])]) = .error .attributeError :=
  ⟨rfl, rfl⟩

/-- C10 (amended): provided the nested point value consulted by the id
fallback is a mapping (or absent or falsy, defaulting to an empty one), a
missing or None identifier at both levels is stringified to the literal
"None" rather than causing a failure or dropping the entry: every
successful normalization of such an entry carries id "None", and
normalization does succeed whenever the score converts and the selected
payload is a mapping.  Any falsy score value (absent, None, 0, or the
empty string) normalizes to the float 0.0.  When the nested point value
is truthy and not a mapping, the id fallback itself raises AttributeError
(see the counterexample). -/
theorem point_to_dict_id_missing (d pd : List (String × PyVal))
    (hid : pyGet d "id" = .none)
    (hpt : pyOr (pyGet d "point") (.dict []) = .dict pd)
    (hpid : pyGet pd "id" = .none) :
    (∀ e, point_to_dict (.dict d) = .ok e →
      e.id = "None" ∧ (pyTruthy (pyGetD d "score" (.num 0)) = false → e.score = 0)) ∧
    ∀ q, scoreToFloat (pyGetD d "score" (.num 0)) = .ok q →
      ∀ ppd : List (String × PyVal),
        (if pyTruthy (pyGet d "payload") then pyGet d "payload"
         else pyOr (pyGet pd "payload") (.dict [])) = .dict ppd →
        ∃ e, point_to_dict (.dict d) = .ok e ∧ e.id = "None" ∧ e.score = q := by
  have h2 : pyTruthy (pyGet d "id") = false := by rw [hid]; rfl
  have heq : point_to_dict (.dict d) =
      (match (if pyTruthy (pyGet d "payload") = true then pyGet d "payload"
              else pyOr (pyGet pd "payload") (PyVal.dict [])) with
       | PyVal.dict ppd =>
         (match scoreToFloat (pyGetD d "score" (PyVal.num 0)) with
          | .error err => .error err
          | .ok q => .ok ⟨"None", pyGet ppd "title", pyGet ppd "description",
              pyGet ppd "price", pyGet ppd "product_url", pyGet ppd "images", q⟩)
       | _ => .error .attributeError) := by
    have hidneg : ¬ pyTruthy (pyGet d "id") = true := by simp [h2]
    simp only [point_to_dict, hpt, hpid]
    rw [if_neg hidneg]
    by_cases hp1 : pyTruthy (pyGet d "payload") = true
    · rw [if_pos hp1, if_pos hp1]
      cases pyGet d "payload" with
      | dict ppd =>
        dsimp only
        cases scoreToFloat (pyGetD d "score" (PyVal.num 0)) <;> rfl
      | none => rfl
      | bool b => rfl
      | num q => rfl
      | str s => rfl
      | list l => rfl
      | obj a => rfl
    · rw [if_neg hp1, if_neg hp1]
      cases pyOr (pyGet pd "payload") (PyVal.dict []) with
      | dict ppd =>
        dsimp only
        cases scoreToFloat (pyGetD d "score" (PyVal.num 0)) <;> rfl
      | none => rfl
      | bool b => rfl
      | num q => rfl
      | str s => rfl
      | list l => rfl
      | obj a => rfl
  constructor
  · intro e he
    rw [heq] at he
    cases hpv : (if pyTruthy (pyGet d "payload") = true then pyGet d "payload"
        else pyOr (pyGet pd "payload") (PyVal.dict [])) with
    | dict ppd =>
      rw [hpv] at he
      cases hsc : scoreToFloat (pyGetD d "score" (PyVal.num 0)) with
      | error err => rw [hsc] at he; exact Except.noConfusion he
      | ok q =>
        rw [hsc] at he
        have hee := (Except.ok.inj he).symm
        subst hee
        refine ⟨rfl, fun hfal => ?_⟩
        have h0 : scoreToFloat (pyGetD d "score" (PyVal.num 0)) = .ok 0 := by
          simp only [scoreToFloat, hfal]
          rfl
        exact (Except.ok.inj (h0.symm.trans hsc)).symm
    | none => rw [hpv] at he; exact Except.noConfusion he
    | bool b => rw [hpv] at he; exact Except.noConfusion he
    | num q => rw [hpv] at he; exact Except.noConfusion he
    | str s => rw [hpv] at he; exact Except.noConfusion he
    | list l => rw [hpv] at he; exact Except.noConfusion he
    | obj a => rw [hpv] at he; exact Except.noConfusion he
  · intro q hq ppd hpv
    refine ⟨⟨"None", pyGet ppd "title", pyGet ppd "description", pyGet ppd "price",
      pyGet ppd "product_url", pyGet ppd "images", q⟩, ?_, rfl, rfl⟩
    rw [heq, hpv, hq]

/-- A payload-bearing raw entry with a missing identifier and a falsy score. -/
def c10d : List (String × PyVal) :=
  [("payload", .dict [("title", .str "T")]), ("score", .str "")]

/-- The entry it normalizes to. -/
def c10e : REntry :=
  ⟨"None", .str "T", .none, .none, .none, .none, 0⟩

theorem point_to_dict_id_missing_witness :
    point_to_dict (.dict c10d) = .ok c10e ∧ c10e.id = "None" ∧ c10e.score = 0 :=
  ⟨rfl, ((point_to_dict_id_missing c10d [] rfl rfl rfl).1 c10e rfl).1,
   ((point_to_dict_id_missing c10d [] rfl rfl rfl).1 c10e rfl).2 rfl⟩

/-- Closed form of the per-point retry loop: every individually accepted
point is counted, every rejected one is reported with its id. -/
theorem retryLoop_spec (env : IngestEnv) :
    ∀ (b : List IPoint) (t : ℕ) (fails : List String),
      retryLoop env b (t, fails) =
        (t + b.countP (fun p => env.upsert [p]),
         fails ++ (b.filter (fun p => !env.upsert [p])).map IPoint.id)
  | [], t, fails => by simp [retryLoop]
  | p :: rest, t, fails => by
    by_cases hp : env.upsert [p]
    · rw [retryLoop, if_pos hp, retryLoop_spec env rest (t + 1) fails]
      simp [List.countP_cons, hp]
      omega
    · rw [retryLoop, if_neg hp, retryLoop_spec env rest t (fails ++ [p.id])]
      simp [List.countP_cons, hp]

/-- C6: when the commit of a full 16-point batch fails and exactly one of
its points is individually rejected by the store, the batch is not
discarded: every point is retried in its own commit, the 15 accepted points
are counted as persisted, the one rejected point is reported by its
identifier, the batch is cleared, and the url loop goes on processing
subsequent urls unconditionally. -/
theorem ingest_batch_retry_isolation (env : IngestEnv) (st : IngestState)
    (b1 b2 : List IPoint) (bad : IPoint)
    (hb : st.batch = b1 ++ bad :: b2)
    (hlen : st.batch.length = BATCH_SIZE)
    (hfail : env.upsert st.batch = false)
    (hbad : env.upsert [bad] = false)
    (hgood : ∀ p ∈ b1 ++ b2, env.upsert [p] = true) :
    (flushBatch env st).total = st.total + (BATCH_SIZE - 1) ∧
    (flushBatch env st).pointFailures = st.pointFailures ++ [bad.id] ∧
    (flushBatch env st).batch = [] ∧
    ∀ (urls : List String) (u : String) (st2 : IngestState),
      (u :: urls).foldl (stepUrl env) st2 = urls.foldl (stepUrl env) (stepUrl env st2 u) := by
  have hcount : st.batch.countP (fun p => env.upsert [p]) = BATCH_SIZE - 1 := by
    rw [hb, List.countP_append, List.countP_cons]
    have h1 : b1.countP (fun p => env.upsert [p]) = b1.length :=
      List.countP_eq_length.2 (fun p hp => hgood p (List.mem_append.2 (Or.inl hp)))
    have h2 : b2.countP (fun p => env.upsert [p]) = b2.length :=
      List.countP_eq_length.2 (fun p hp => hgood p (List.mem_append.2 (Or.inr hp)))
    have hlen' : b1.length + (b2.length + 1) = BATCH_SIZE := by
      rw [hb] at hlen; simpa using hlen
    rw [h1, h2, hbad]
    simp
    omega
  have hfilter : st.batch.filter (fun p => !env.upsert [p]) = [bad] := by
    rw [hb, List.filter_append]
    have h1 : b1.filter (fun p => !env.upsert [p]) = [] :=
      List.filter_eq_nil_iff.2 (fun p hp => by
        simp [hgood p (List.mem_append.2 (Or.inl hp))])
    have h2 : b2.filter (fun p => !env.upsert [p]) = [] :=
      List.filter_eq_nil_iff.2 (fun p hp => by
        simp [hgood p (List.mem_append.2 (Or.inr hp))])
    rw [h1]
    simp only [List.filter_cons, hbad]
    simp [h2]
  refine ⟨?_, ?_, ?_, fun urls u st2 => rfl⟩
  · unfold flushBatch
    rw [if_neg (by simp [hfail]), retryLoop_spec env st.batch st.total st.pointFailures, hcount]
  · unfold flushBatch
    rw [if_neg (by simp [hfail]), retryLoop_spec env st.batch st.total st.pointFailures, hfilter]
    rfl
  · unfold flushBatch
    rw [if_neg (by simp [hfail]), retryLoop_spec env st.batch st.total st.pointFailures]

/-- A concrete point for the C6 witness batch. -/
def c6pt (n : ℕ) : IPoint :=
  ⟨"p" ++ toString n, [], Option.none, ⟨"", "", Option.none, "", .list []⟩⟩

/-- The 16-point witness batch with ids p0..p15. -/
def c6batch : List IPoint := (List.range 16).map c6pt

/-- A store oracle that rejects every multi-point commit and every single
commit of the poisoned point p7. -/
def c6upsert : List IPoint → Bool := fun l =>
  match l with
  | [p] => p.id != "p7"
  | _ => false

/-- The environment of the C6 witness. -/
def c6env : IngestEnv :=
  ⟨.ok [], fun _ => .error (), fun _ => .error (), fun _ => .error (), c6upsert, fun _ => ""⟩

/-- The controller state holding the full witness batch. -/
def c6st : IngestState := ⟨c6batch, 0, [], [], [], 0⟩

theorem ingest_batch_retry_isolation_witness :
    (flushBatch c6env c6st).total = c6st.total + (BATCH_SIZE - 1) ∧
    (flushBatch c6env c6st).pointFailures = c6st.pointFailures ++ [(c6pt 7).id] ∧
    (flushBatch c6env c6st).batch = [] ∧
    ∀ (urls : List String) (u : String) (st2 : IngestState),
      (u :: urls).foldl (stepUrl c6env) st2 = urls.foldl (stepUrl c6env) (stepUrl c6env st2 u) :=
  ingest_batch_retry_isolation c6env c6st ((List.range 7).map c6pt)
    ((List.range 8).map (fun n => c6pt (8 + n))) (c6pt 7) rfl rfl rfl rfl (by decide)

/-! ### Theorems: the extraction engine price/image anatomy -/

/-- fetch_product_data either raises or runs fetchTail with the price and
images produced by the structured-data extraction helpers (in every branch,
including an absent or falsy or non-mapping structured-data object). -/
theorem fetch_eq_tail (url : String) (doc : Doc) :
    (∃ e, fetch_product_data url doc = .error e) ∨
    ∃ t0 d0, fetch_product_data url doc =
      fetchTail url doc t0 d0 (extract_price_from_ld (parse_ld_json doc.ldScripts))
        (extract_images_from_ld (parse_ld_json doc.ldScripts)) := by
  cases hld : parse_ld_json doc.ldScripts with
  | none =>
    right
    exact ⟨.none, .none, by
      simp only [fetch_product_data, hld, extract_price_from_ld, extract_images_from_ld,
        Bool.false_eq_true, if_false]⟩
  | some v =>
    cases v with
    | dict d =>
      by_cases htr : pyTruthy (.dict d) = true
      · cases hdesc : ldDescription d with
        | error e =>
          left
          exact ⟨e, by simp only [fetch_product_data, hld, htr, hdesc, if_true]⟩
        | ok descr =>
          right
          refine ⟨ldTitle d, descr, ?_⟩
          simp only [fetch_product_data, hld, htr, hdesc, if_true]
      · right
        have htr' : pyTruthy (.dict d) = false := by
          cases h : pyTruthy (.dict d)
          · rfl
          · exact absurd h htr
        refine ⟨.none, .none, ?_⟩
        simp only [fetch_product_data, hld, htr', extract_price_from_ld,
          extract_images_from_ld, Bool.false_eq_true, if_false]
    | none =>
      right
      exact ⟨.none, .none, by
        simp only [fetch_product_data, hld, extract_price_from_ld, extract_images_from_ld,
          pyTruthy, Bool.false_eq_true, if_false]⟩
    | bool b =>
      right
      exact ⟨.none, .none, by
        simp only [fetch_product_data, hld, extract_price_from_ld, extract_images_from_ld,
          ite_self]⟩
    | num q =>
      right
      exact ⟨.none, .none, by
        simp only [fetch_product_data, hld, extract_price_from_ld, extract_images_from_ld,
          ite_self]⟩
    | str s =>
      right
      exact ⟨.none, .none, by
        simp only [fetch_product_data, hld, extract_price_from_ld, extract_images_from_ld,
          ite_self]⟩
    | list items =>
      right
      exact ⟨.none, .none, by
        simp only [fetch_product_data, hld, extract_price_from_ld, extract_images_from_ld,
          ite_self]⟩
    | obj attrs =>
      right
      exact ⟨.none, .none, by
        simp only [fetch_product_data, hld, extract_price_from_ld, extract_images_from_ld,
          ite_self]⟩

/-- Anatomy of a successful final assembly: the url is echoed and price and
images are stored unchanged. -/
theorem assembleRecord_anatomy (url : String) (t2 d2 : PyVal) (p2 : Option ℚ) (i2 : PyVal)
    (r : ProductRecord) (hok : assembleRecord url t2 d2 p2 i2 = .ok r) :
    r.product_url = url ∧ r.price = p2 ∧ r.images = i2 := by
  unfold assembleRecord at hok
  cases h1 : orEmptyStrip t2 with
  | error e => rw [h1] at hok; cases hok
  | ok ts =>
    rw [h1] at hok
    cases h2 : orEmptyStrip d2 with
    | error e => rw [h2] at hok; cases hok
    | ok ds =>
      rw [h2] at hok
      injection hok with h
      subst h
      exact ⟨rfl, rfl, rfl⟩

/-- Anatomy of a successful fetchTail run: the url is echoed, the price is
the precedence chain over the remaining strategies, and the images are the
social-meta stage value or, when that is falsy, the deduplicated filtered
img-tag fallback. -/
theorem fetchTail_anatomy (url : String) (doc : Doc) (t0 d0 : PyVal)
    (p0 : Option ℚ) (i0 : PyVal) (r : ProductRecord)
    (hok : fetchTail url doc t0 d0 p0 i0 = .ok r) :
    r.product_url = url ∧
    r.price = p0.or ((extract_price_by_selectors doc).or (extract_price_from_js doc.rawHtml)) ∧
    r.images = (if pyTruthy (imagesAfterOg doc i0) = true then imagesAfterOg doc i0
      else .list ((dedupeStrings (imgFallbackKept url doc)).map PyVal.str)) := by
  unfold fetchTail at hok
  obtain ⟨hu, hp, hi⟩ := assembleRecord_anatomy _ _ _ _ _ _ hok
  refine ⟨hu, ?_, ?_⟩
  · rw [hp]
    cases p0 with
    | none =>
      cases hsel : extract_price_by_selectors doc with
      | none => simp [Option.or, hsel]
      | some q => simp [Option.or, hsel]
    | some q => simp [Option.or]
  · rw [hi]
    simp only [imagesAfterOg]

/-! ### Theorems: non-negativity of selector and regex prices (C3, C8) -/

/-- Stripping whitespace only removes characters. -/
theorem mem_pyStripChars (l : List Char) (c : Char) (h : c ∈ pyStripChars l) : c ∈ l := by
  unfold pyStripChars at h
  rw [List.mem_reverse] at h
  have h2 := (List.dropWhile_sublist pyIsSpace).subset h
  rw [List.mem_reverse] at h2
  exact (List.dropWhile_sublist pyIsSpace).subset h2

/-- A successful float() parse of a string of digit/dot/comma characters is
non-negative. -/
theorem parseFloat_nonneg (s : String) (hs : ∀ c ∈ s.data, numRunClass c = true)
    {q : ℚ} (hq : parseFloat s = some q) : 0 ≤ q := by
  unfold parseFloat at hq
  cases hcs : pyStripChars s.data with
  | nil => rw [hcs] at hq; cases hq
  | cons c rest =>
    rw [hcs] at hq
    have hc : numRunClass c = true :=
      hs c (mem_pyStripChars s.data c (hcs ▸ List.mem_cons_self c rest))
    have hneg : (c == '-') = false := by
      cases hcc : c == '-'
      · rfl
      · rw [beq_iff_eq] at hcc
        subst hcc
        exact absurd hc (by decide)
    simp only [hneg, Bool.false_eq_true, if_false] at hq
    split at hq
    · injection hq with hq
      subst hq
      rw [Rat.mkRat_eq_div]
      positivity
    · cases hq

/-- Every character of a captured numeric group is in the `[\d\.,]` class. -/
theorem numGroupAt_class (l run : List Char) (h : numGroupAt l = some run) :
    ∀ c ∈ run, numRunClass c = true := by
  cases l with
  | nil => cases h
  | cons c rest =>
    simp only [numGroupAt] at h
    by_cases hc : numRunClass c = true
    · rw [if_pos hc] at h
      injection h with h
      subst h
      intro x hx
      rcases List.mem_cons.1 hx with rfl | hx
      · exact hc
      · exact List.mem_takeWhile_imp hx
    · rw [if_neg hc] at h
      cases h

/-- The regex search `([\d\.,]+)` finds a class-pure group. -/
theorem firstNumRun_class : ∀ (l run : List Char), firstNumRun l = some run →
    ∀ c ∈ run, numRunClass c = true
  | [], _, h => by cases h
  | c :: rest, run, h => by
    unfold firstNumRun at h
    by_cases hc : numRunClass c = true
    · rw [if_pos hc] at h
      injection h with h
      subst h
      intro x hx
      rcases List.mem_cons.1 hx with rfl | hx
      · exact hc
      · exact List.mem_takeWhile_imp hx
    · rw [if_neg hc] at h
      exact firstNumRun_class rest run h

/-- The selector price loop only returns non-negative values (its regex
group has no sign character). -/
theorem priceSelGo_nonneg (doc : Doc) : ∀ (sels : List String) (q : ℚ),
    priceSelGo doc sels = some q → 0 ≤ q
  | [], q, h => by cases h
  | sel :: rest, q, h => by
    unfold priceSelGo at h
    cases ha : assocFindStr doc.priceSelTexts sel with
    | none => simp only [ha] at h; exact priceSelGo_nonneg doc rest q h
    | some text =>
      simp only [ha] at h
      cases hr : firstNumRun (stripCommas text).data with
      | none => simp only [hr] at h; exact priceSelGo_nonneg doc rest q h
      | some run =>
        simp only [hr] at h
        cases hp : parseFloat ⟨run⟩ with
        | none => simp only [hp] at h; exact priceSelGo_nonneg doc rest q h
        | some q2 =>
          simp only [hp] at h
          injection h with h
          subst h
          exact parseFloat_nonneg ⟨run⟩ (fun c hc => firstNumRun_class _ _ hr c hc) hp

/-- extract_price_by_selectors only returns non-negative values. -/
theorem extract_price_by_selectors_nonneg (doc : Doc) (q : ℚ)
    (h : extract_price_by_selectors doc = some q) : 0 ≤ q :=
  priceSelGo_nonneg doc priceSelectors q h

/-- Every group produced by the first raw-markup pattern comes from
numGroupAt. -/
theorem match1At_group (cs run : List Char) (h : match1At cs = some run) :
    ∃ l, numGroupAt l = some run := by
  unfold match1At at h
  cases hd : dropLit "\"price\"".data cs with
  | none => simp only [hd] at h; exact Option.noConfusion h
  | some cs1 =>
    simp only [hd] at h
    split at h
    · exact ⟨_, h⟩
    · exact Option.noConfusion h

/-- Every group produced by the second raw-markup pattern comes from
numGroupAt. -/
theorem match2At_group (cs run : List Char) (h : match2At cs = some run) :
    ∃ l, numGroupAt l = some run := by
  unfold match2At at h
  cases hd : dropLit "price".data cs with
  | none => simp only [hd] at h; exact Option.noConfusion h
  | some cs1 =>
    simp only [hd] at h
    split at h
    · exact ⟨_, h⟩
    · exact Option.noConfusion h

/-- Groups found by the first pattern search are class-pure. -/
theorem searchJs1_class : ∀ (l run : List Char), searchJs1 l = some run →
    ∀ c ∈ run, numRunClass c = true
  | [], _, h => by cases h
  | c :: rest, run, h => by
    unfold searchJs1 at h
    cases hm : match1At (c :: rest) with
    | none => simp only [hm] at h; exact searchJs1_class rest run h
    | some g =>
      simp only [hm] at h
      injection h with h
      subst h
      obtain ⟨l, hl⟩ := match1At_group _ _ hm
      exact numGroupAt_class l _ hl

/-- Groups found by the second pattern search are class-pure. -/
theorem searchJs2_class : ∀ (l run : List Char), searchJs2 l = some run →
    ∀ c ∈ run, numRunClass c = true
  | [], _, h => by cases h
  | c :: rest, run, h => by
    unfold searchJs2 at h
    cases hm : match2At (c :: rest) with
    | none => simp only [hm] at h; exact searchJs2_class rest run h
    | some g =>
      simp only [hm] at h
      injection h with h
      subst h
      obtain ⟨l, hl⟩ := match2At_group _ _ hm
      exact numGroupAt_class l _ hl

/-- extract_price_from_js only returns non-negative values. -/
theorem extract_price_from_js_nonneg (html : String) (q : ℚ)
    (h : extract_price_from_js html = some q) : 0 ≤ q := by
  unfold extract_price_from_js at h
  cases h1 : searchJs1 html.data with
  | some g =>
    simp only [h1] at h
    cases hp : parseFloat ⟨g.filter (fun c => c != ',')⟩ with
    | none =>
      simp only [hp] at h
      cases h2 : searchJs2 html.data with
      | none => simp only [h2] at h; exact Option.noConfusion h
      | some g2 =>
        simp only [h2] at h
        cases hp2 : parseFloat ⟨g2.filter (fun c => c != ',')⟩ with
        | none => simp only [hp2] at h; exact Option.noConfusion h
        | some q2 =>
          simp only [hp2] at h
          injection h with h
          subst h
          refine parseFloat_nonneg _ ?_ hp2
          intro c hc
          exact searchJs2_class html.data g2 h2 c ((List.filter_sublist g2).subset hc)
    | some q1 =>
      simp only [hp] at h
      injection h with h
      subst h
      refine parseFloat_nonneg _ ?_ hp
      intro c hc
      exact searchJs1_class html.data g h1 c ((List.filter_sublist g).subset hc)
  | none =>
    simp only [h1] at h
    cases h2 : searchJs2 html.data with
    | none => simp only [h2] at h; exact Option.noConfusion h
    | some g2 =>
      simp only [h2] at h
      cases hp2 : parseFloat ⟨g2.filter (fun c => c != ',')⟩ with
      | none => simp only [hp2] at h; exact Option.noConfusion h
      | some q2 =>
        simp only [hp2] at h
        injection h with h
        subst h
        refine parseFloat_nonneg _ ?_ hp2
        intro c hc
        exact searchJs2_class html.data g2 h2 c ((List.filter_sublist g2).subset hc)

/-- The price of every successfully extracted record follows the strategy
chain: structured data, then selectors, then the raw-markup scan. -/
theorem fetch_price_chain (url : String) (doc : Doc) (r : ProductRecord)
    (hok : fetch_product_data url doc = .ok r) :
    r.price = (extract_price_from_ld (parse_ld_json doc.ldScripts)).or
      ((extract_price_by_selectors doc).or (extract_price_from_js doc.rawHtml)) := by
  rcases fetch_eq_tail url doc with ⟨e, he⟩ | ⟨t0, d0, heq⟩
  · rw [he] at hok; cases hok
  · rw [heq] at hok
    exact (fetchTail_anatomy _ _ _ _ _ _ _ hok).2.1

/-- C8: when both a structured-data numeric offer price and a
selector-derived price are present and disagree, the record's price is the
structured-data one; the full price is the precedence chain, so the
selector and regex strategies only contribute when every higher-precedence
strategy yields none. -/
theorem price_precedence_structured_wins (url : String) (doc : Doc) (r : ProductRecord)
    (hok : fetch_product_data url doc = .ok r) :
    r.price = (extract_price_from_ld (parse_ld_json doc.ldScripts)).or
      ((extract_price_by_selectors doc).or (extract_price_from_js doc.rawHtml)) ∧
    ∀ a b, extract_price_from_ld (parse_ld_json doc.ldScripts) = some a →
      extract_price_by_selectors doc = some b → a ≠ b → r.price = some a := by
  refine ⟨fetch_price_chain url doc r hok, ?_⟩
  intro a b hld hsel hne
  rw [fetch_price_chain url doc r hok, hld]
  rfl

/-- The page for the C8 witness: structured-data price 5, selector price 7. -/
def c8doc : Doc :=
  { emptyDoc with
    ldScripts := [some (.dict [("@type", .str "Product"), ("offers", .dict [("price", .num 5)])])],
    priceSelTexts := [(".price", "$ 7.00")] }

/-- The record the C8 witness page extracts to. -/
def c8rec : ProductRecord :=
  { product_url := "https://s.ex/p", title := "", description := "",
    price := some 5, images := .list [] }

theorem price_precedence_structured_wins_witness :
    fetch_product_data "https://s.ex/p" c8doc = .ok c8rec ∧
    extract_price_from_ld (parse_ld_json c8doc.ldScripts) = some 5 ∧
    extract_price_by_selectors c8doc = some 7 ∧
    c8rec.price = some 5 :=
  ⟨rfl, rfl, rfl,
    (price_precedence_structured_wins "https://s.ex/p" c8doc c8rec rfl).2 5 7 rfl rfl (by decide)⟩

/-- The page for the C3 counterexample: a structured-data offer price of
"-5". -/
def c3doc : Doc :=
  { emptyDoc with ldScripts :=
      [some (.dict [("@type", .str "Product"), ("offers", .dict [("price", .str "-5")])])] }

/-- C3 (counterexample): the extraction engine accepts a negative
structured-data offer price, so the record price is not always
non-negative. -/
theorem price_negative_from_ld :
    fetch_product_data "https://s.ex/p" c3doc =
      .ok { product_url := "https://s.ex/p", title := "", description := "",
            price := some (mkRat (-5) 1), images := .list [] } ∧
    mkRat (-5) 1 < 0 :=
  ⟨rfl, by decide⟩

/-- C3 (amended): the record price is always either None or a float, and
whenever the structured-data strategy yields no price — so the price comes
from the CSS-selector or raw-markup regex strategy — it is non-negative. -/
theorem price_nonneg_of_ld_none (url : String) (doc : Doc) (r : ProductRecord)
    (hok : fetch_product_data url doc = .ok r)
    (hld : extract_price_from_ld (parse_ld_json doc.ldScripts) = Option.none) :
    r.price = Option.none ∨ ∃ q, r.price = some q ∧ 0 ≤ q := by
  have hch := fetch_price_chain url doc r hok
  rw [hld] at hch
  cases hsel : extract_price_by_selectors doc with
  | some q =>
    right
    rw [hsel] at hch
    exact ⟨q, by simpa [Option.or] using hch, extract_price_by_selectors_nonneg doc q hsel⟩
  | none =>
    rw [hsel] at hch
    cases hjs : extract_price_from_js doc.rawHtml with
    | none =>
      left
      rw [hjs] at hch
      simpa [Option.or] using hch
    | some q =>
      right
      rw [hjs] at hch
      exact ⟨q, by simpa [Option.or] using hch, extract_price_from_js_nonneg doc.rawHtml q hjs⟩

/-- The page for the C3 amended witness: no structured data, selector price
3.50. -/
def c3wdoc : Doc := { emptyDoc with priceSelTexts := [(".money", "3.50")] }

/-- The record the C3 amended witness page extracts to. -/
def c3wrec : ProductRecord :=
  { product_url := "https://s.ex/p", title := "", description := "",
    price := some (mkRat 7 2), images := .list [] }

theorem price_nonneg_of_ld_none_witness :
    fetch_product_data "https://s.ex/p" c3wdoc = .ok c3wrec ∧
    extract_price_from_ld (parse_ld_json c3wdoc.ldScripts) = Option.none ∧
    (c3wrec.price = Option.none ∨ ∃ q, c3wrec.price = some q ∧ 0 ≤ q) :=
  ⟨rfl, rfl, price_nonneg_of_ld_none "https://s.ex/p" c3wdoc c3wrec rfl rfl⟩

/-! ### Theorems: the image pipeline (C2) -/

/-- Membership in the seen-set dedupe: kept iff present and not seen. -/
theorem dedupeStringsGo_mem (l : List String) (seen : List String) (x : String) :
    x ∈ dedupeStringsGo seen l ↔ x ∈ l ∧ x ∉ seen := by
  induction l generalizing seen with
  | nil => simp [dedupeStringsGo]
  | cons a rest ih =>
    unfold dedupeStringsGo
    by_cases ha : a ∈ seen
    · rw [if_pos ha, ih]
      constructor
      · rintro ⟨hx, hns⟩
        exact ⟨List.mem_cons_of_mem a hx, hns⟩
      · rintro ⟨hx, hns⟩
        rcases List.mem_cons.1 hx with rfl | hx
        · exact absurd ha hns
        · exact ⟨hx, hns⟩
    · rw [if_neg ha]
      constructor
      · intro hx
        rcases List.mem_cons.1 hx with rfl | hx
        · exact ⟨List.mem_cons_self _ _, ha⟩
        · rw [ih] at hx
          exact ⟨List.mem_cons_of_mem a hx.1, fun hc => hx.2 (List.mem_cons_of_mem a hc)⟩
      · rintro ⟨hx, hns⟩
        by_cases hxa : x = a
        · subst hxa
          exact List.mem_cons_self _ _
        · rcases List.mem_cons.1 hx with rfl | hx
          · exact absurd rfl hxa
          · refine List.mem_cons_of_mem a ?_
            rw [ih]
            refine ⟨hx, fun hc => ?_⟩
            rcases List.mem_cons.1 hc with h | h
            · exact hxa h
            · exact hns h

/-- The dedupe output has no duplicates. -/
theorem dedupeStringsGo_nodup (l : List String) : ∀ seen, (dedupeStringsGo seen l).Nodup := by
  induction l with
  | nil => intro seen; exact List.nodup_nil
  | cons a rest ih =>
    intro seen
    unfold dedupeStringsGo
    by_cases ha : a ∈ seen
    · rw [if_pos ha]; exact ih seen
    · rw [if_neg ha]
      refine List.nodup_cons.2 ⟨fun hmem => ?_, ih (a :: seen)⟩
      rw [dedupeStringsGo_mem] at hmem
      exact hmem.2 (List.mem_cons_self a seen)

/-- The dedupe output preserves first-seen order (it is a sublist). -/
theorem dedupeStringsGo_sublist (l : List String) : ∀ seen, (dedupeStringsGo seen l).Sublist l := by
  induction l with
  | nil => intro seen; simp [dedupeStringsGo]
  | cons a rest ih =>
    intro seen
    unfold dedupeStringsGo
    by_cases ha : a ∈ seen
    · rw [if_pos ha]; exact (ih seen).cons a
    · rw [if_neg ha]; exact (ih (a :: seen)).cons₂ a

/-- The page for the C2 counterexample: structured-data images containing
an icon URL next to an alternative image. -/
def c2doc : Doc :=
  { emptyDoc with ldScripts :=
      [some (.dict [("@type", .str "Product"),
                    ("image", .list [.str "https://cdn.ex/icon.png", .str "https://cdn.ex/a.jpg"])])] }

/-- C2 (counterexample): images coming from structured data are returned
verbatim — an URL containing "icon" stays in the final image list even
though an alternative image exists, so the icon/sprite exclusion does not
apply to every image source. -/
theorem images_icon_kept_from_ld :
    fetch_product_data "https://s.ex/p" c2doc =
      .ok { product_url := "https://s.ex/p", title := "", description := "",
            price := Option.none,
            images := .list [.str "https://cdn.ex/icon.png", .str "https://cdn.ex/a.jpg"] } ∧
    strContains "https://cdn.ex/icon.png" "icon" = true ∧
    "https://cdn.ex/a.jpg" ≠ "https://cdn.ex/icon.png" :=
  ⟨rfl, by decide, by decide⟩

/-- C2 (amended): the icon/sprite exclusion, resolution against the page
URL and order-preserving deduplication hold for the img-tag source, which
is used exactly when structured data and social meta yield no images: then
no final image URL contains "icon" or "sprite" (even unconditionally),
every final URL is some img src resolved against the page URL, and the
final list is duplicate-free, order-preserving and complete for the kept
URLs. -/
theorem images_fallback_filtered_resolved_deduped (url : String) (doc : Doc)
    (r : ProductRecord) (hok : fetch_product_data url doc = .ok r)
    (hfb : pyTruthy (imagesAfterOg doc
      (extract_images_from_ld (parse_ld_json doc.ldScripts))) = false) :
    r.images = .list ((dedupeStrings (imgFallbackKept url doc)).map PyVal.str) ∧
    (∀ u ∈ dedupeStrings (imgFallbackKept url doc),
      strContains u "icon" = false ∧ strContains u "sprite" = false ∧
      ∃ t ∈ doc.imgTags, ∃ s, imgSrc t = some s ∧ u = urljoin url s) ∧
    (dedupeStrings (imgFallbackKept url doc)).Nodup ∧
    (dedupeStrings (imgFallbackKept url doc)).Sublist (imgFallbackKept url doc) ∧
    ∀ x ∈ imgFallbackKept url doc, x ∈ dedupeStrings (imgFallbackKept url doc) := by
  refine ⟨?_, ?_, dedupeStringsGo_nodup _ [], dedupeStringsGo_sublist _ [], ?_⟩
  · rcases fetch_eq_tail url doc with ⟨e, he⟩ | ⟨t0, d0, heq⟩
    · rw [he] at hok; cases hok
    · rw [heq] at hok
      have h3 := (fetchTail_anatomy _ _ _ _ _ _ _ hok).2.2
      rw [hfb] at h3
      simpa using h3
  · intro u hu
    have hk : u ∈ imgFallbackKept url doc := (dedupeStringsGo_sublist _ []).subset hu
    unfold imgFallbackKept at hk
    rw [List.mem_filter] at hk
    obtain ⟨hmap, hcond⟩ := hk
    simp only [Bool.and_eq_true, Bool.not_eq_true'] at hcond
    rw [List.mem_map] at hmap
    obtain ⟨s, hs, rfl⟩ := hmap
    rw [List.mem_filterMap] at hs
    obtain ⟨t, ht, hsrc⟩ := hs
    exact ⟨hcond.1, hcond.2, t, ht, s, hsrc, rfl⟩
  · intro x hx
    rw [dedupeStrings, dedupeStringsGo_mem]
    exact ⟨hx, by simp⟩

/-- The page for the C2 amended witness: img tags with a duplicate relative
src and an icon src. -/
def c2wdoc : Doc :=
  { emptyDoc with imgTags :=
      [⟨some "/i/a.jpg", Option.none, Option.none⟩,
       ⟨Option.none, some "https://cdn.ex/icon-sm.png", Option.none⟩,
       ⟨some "/i/a.jpg", Option.none, Option.none⟩] }

/-- The record the C2 amended witness page extracts to. -/
def c2wrec : ProductRecord :=
  { product_url := "https://shop.ex/p/x", title := "", description := "",
    price := Option.none, images := .list [.str "https://shop.ex/i/a.jpg"] }

theorem images_fallback_filtered_resolved_deduped_witness :
    fetch_product_data "https://shop.ex/p/x" c2wdoc = .ok c2wrec ∧
    c2wrec.images = .list ((dedupeStrings (imgFallbackKept "https://shop.ex/p/x" c2wdoc)).map PyVal.str) :=
  ⟨rfl,
    (images_fallback_filtered_resolved_deduped "https://shop.ex/p/x" c2wdoc c2wrec rfl rfl).1⟩

/-! ### Theorems: degradation of the extraction engine (C1) -/

/-- A value that the final `(v or "").strip()` accepts: falsy (replaced by
the empty string) or a string. -/
def strOrFalsyB (v : PyVal) : Bool :=
  !pyTruthy v ||
    (match v with
     | .str _ => true
     | _ => false)

/-- Well-typedness of the discovered structured-data object: name/headline,
description and (when the description is missing) the review mapping's
reviewBody are strings or falsy, and review is a mapping when consulted.
Exactly the conditions under which the extraction cannot raise. -/
def ldWellTypedB : Option PyVal → Bool
  | some (.dict d) =>
    strOrFalsyB (ldTitle d) &&
    strOrFalsyB (pyGet d "description") &&
    (pyTruthy (pyGet d "description") ||
      (match pyGetD d "review" (.dict []) with
       | .dict r => strOrFalsyB (pyGet r "reviewBody")
       | _ => false))
  | _ => true

/-- The strip of `(v or "")` succeeds on strings and falsy values. -/
theorem orEmptyStrip_ok (v : PyVal) (h : strOrFalsyB v = true) :
    ∃ s, orEmptyStrip v = .ok s := by
  unfold orEmptyStrip pyOr
  cases hv : pyTruthy v
  · exact ⟨pyStrip "", rfl⟩
  · unfold strOrFalsyB at h
    rw [hv] at h
    simp only [Bool.not_true, Bool.false_or] at h
    cases v with
    | str s => exact ⟨pyStrip s, rfl⟩
    | none => exact Bool.noConfusion h
    | bool b => exact Bool.noConfusion h
    | num q => exact Bool.noConfusion h
    | list items => exact Bool.noConfusion h
    | dict fields => exact Bool.noConfusion h
    | obj attrs => exact Bool.noConfusion h

/-- Python `a or b` preserves acceptability for strip. -/
theorem pyOr_strOrFalsy (a b : PyVal) (ha : strOrFalsyB a = true)
    (hb : strOrFalsyB b = true) : strOrFalsyB (pyOr a b) = true := by
  unfold pyOr
  by_cases h : pyTruthy a = true
  · rw [if_pos h]; exact ha
  · rw [if_neg h]; exact hb

/-- The social-meta title value is a string or absent. -/
theorem og_title_strOrFalsy (doc : Doc) :
    strOrFalsyB (pyGet (extract_og doc) "title") = true := by
  unfold extract_og pyGet assocFind
  rcases doc.ogTitle with _ | t <;> rcases doc.ogDesc with _ | d <;>
    rcases doc.ogImage with _ | i <;> dsimp only <;> (try split_ifs) <;>
      simp [strOrFalsyB, assocFind, pyTruthy]

/-- The social-meta description value is a string or absent. -/
theorem og_desc_strOrFalsy (doc : Doc) :
    strOrFalsyB (pyGet (extract_og doc) "description") = true := by
  unfold extract_og pyGet assocFind
  rcases doc.ogTitle with _ | t <;> rcases doc.ogDesc with _ | d <;>
    rcases doc.ogImage with _ | i <;> dsimp only <;> (try split_ifs) <;>
      simp [strOrFalsyB, assocFind, pyTruthy]

/-- Successful assembly under acceptable title/description values. -/
theorem assembleRecord_ok (url : String) (t2 d2 : PyVal) (p : Option ℚ) (i : PyVal)
    (ht : strOrFalsyB t2 = true) (hd : strOrFalsyB d2 = true) :
    ∃ r, assembleRecord url t2 d2 p i = .ok r := by
  obtain ⟨ts, hts⟩ := orEmptyStrip_ok t2 ht
  obtain ⟨ds, hds⟩ := orEmptyStrip_ok d2 hd
  exact ⟨_, by unfold assembleRecord; rw [hts, hds]⟩

/-- fetchTail cannot raise when the structured-data title and description
candidates are strings or falsy. -/
theorem fetchTail_ok (url : String) (doc : Doc) (t0 d0 : PyVal) (p0 : Option ℚ)
    (i0 : PyVal) (ht : strOrFalsyB t0 = true) (hd : strOrFalsyB d0 = true) :
    ∃ r, fetchTail url doc t0 d0 p0 i0 = .ok r := by
  unfold fetchTail
  apply assembleRecord_ok
  · split
    · split
      · exact pyOr_strOrFalsy _ _ ht (og_title_strOrFalsy doc)
      · split
        · simp [strOrFalsyB]
        · exact pyOr_strOrFalsy _ _ ht (og_title_strOrFalsy doc)
    · split
      · exact ht
      · split
        · simp [strOrFalsyB]
        · exact ht
  · split
    · split
      · exact pyOr_strOrFalsy _ _ hd (og_desc_strOrFalsy doc)
      · split
        · simp [strOrFalsyB]
        · exact pyOr_strOrFalsy _ _ hd (og_desc_strOrFalsy doc)
    · split
      · exact hd
      · split
        · simp [strOrFalsyB]
        · exact hd

/-- The page for the C1 counterexample: a product object whose review is a
list and whose description is absent. -/
def c1doc : Doc :=
  { emptyDoc with ldScripts :=
      [some (.dict [("@type", .str "Product"), ("review", .list [])])] }

/-- C1 (counterexample): with the document fetched, a malformed
structured-data object (review present as a list, description absent) makes
fetch_product_data raise AttributeError instead of degrading to an empty
field, so extraction is not exception-free for every fetched document. -/
theorem fetch_product_data_review_crash :
    fetch_product_data "https://s.ex/p" c1doc = .error .attributeError := rfl

/-- C1 (amended): once the markup is fetched, extraction never raises
provided the discovered structured-data object is well-typed (name,
headline, description and reviewBody strings-or-falsy, review a mapping
when consulted): every field-level failure then degrades to an empty value
and a record is always produced. -/
theorem fetch_product_data_ok_of_wellTypedLd (url : String) (doc : Doc)
    (h : ldWellTypedB (parse_ld_json doc.ldScripts) = true) :
    ∃ r, fetch_product_data url doc = .ok r := by
  unfold fetch_product_data
  cases hld : parse_ld_json doc.ldScripts with
  | none =>
    simp only [hld, Bool.false_eq_true, if_false]
    exact fetchTail_ok url doc _ _ _ _ rfl rfl
  | some v =>
    rw [hld] at h
    cases v with
    | dict d =>
      by_cases htr : pyTruthy (.dict d) = true
      · unfold ldWellTypedB at h
        simp only [Bool.and_eq_true] at h
        obtain ⟨⟨hT, hD⟩, hRev⟩ := h
        have hdesc : ∃ dv, ldDescription d = .ok dv ∧ strOrFalsyB dv = true := by
          unfold ldDescription
          by_cases hDt : pyTruthy (pyGet d "description") = true
          · rw [if_pos hDt]
            exact ⟨_, rfl, hD⟩
          · rw [if_neg hDt]
            rw [Bool.or_eq_true] at hRev
            rcases hRev with hRev | hRev
            · exact absurd hRev hDt
            · cases hrev : pyGetD d "review" (.dict []) with
              | dict rv =>
                rw [hrev] at hRev
                exact ⟨_, rfl, hRev⟩
              | none => rw [hrev] at hRev; exact Bool.noConfusion hRev
              | bool b => rw [hrev] at hRev; exact Bool.noConfusion hRev
              | num q => rw [hrev] at hRev; exact Bool.noConfusion hRev
              | str s => rw [hrev] at hRev; exact Bool.noConfusion hRev
              | list items => rw [hrev] at hRev; exact Bool.noConfusion hRev
              | obj attrs => rw [hrev] at hRev; exact Bool.noConfusion hRev
        obtain ⟨dv, hdv, hdvs⟩ := hdesc
        simp only [hld, htr, if_true, hdv]
        exact fetchTail_ok url doc _ _ _ _ hT hdvs
      · have htr' : pyTruthy (.dict d) = false := by
          cases hx : pyTruthy (.dict d)
          · rfl
          · exact absurd hx htr
        simp only [hld, htr', Bool.false_eq_true, if_false]
        exact fetchTail_ok url doc _ _ _ _ rfl rfl
    | none =>
      simp only [hld, pyTruthy, Bool.false_eq_true, if_false]
      exact fetchTail_ok url doc _ _ _ _ rfl rfl
    | bool b =>
      simp only [hld, ite_self]
      exact fetchTail_ok url doc _ _ _ _ rfl rfl
    | num q =>
      simp only [hld, ite_self]
      exact fetchTail_ok url doc _ _ _ _ rfl rfl
    | str s =>
      simp only [hld, ite_self]
      exact fetchTail_ok url doc _ _ _ _ rfl rfl
    | list items =>
      simp only [hld, ite_self]
      exact fetchTail_ok url doc _ _ _ _ rfl rfl
    | obj attrs =>
      simp only [hld, ite_self]
      exact fetchTail_ok url doc _ _ _ _ rfl rfl

/-- The page for the C1 amended witness: well-typed structured data with a
review mapping. -/
def c1wdoc : Doc :=
  { emptyDoc with ldScripts :=
      [some (.dict [("@type", .str "Product"), ("name", .str "Gadget"),
                    ("review", .dict [("reviewBody", .str "Nice")])])] }

theorem fetch_product_data_ok_of_wellTypedLd_witness :
    ldWellTypedB (parse_ld_json c1wdoc.ldScripts) = true ∧
    ∃ r, fetch_product_data "https://s.ex/p" c1wdoc = .ok r :=
  ⟨by decide, fetch_product_data_ok_of_wellTypedLd "https://s.ex/p" c1wdoc (by decide)⟩

/-! ### Theorems: the dedupe engine (C4) -/

/-- Whether an entry carries the canonical-URL key k. -/
def isFor (k : PyKey) (e : REntry) : Bool :=
  pyTruthy e.product_url && decide (toKey e.product_url = some k)

/-- The entry a Python dict累 fold keeps for one key: the current candidate
is replaced only by a strictly higher score. -/
def bestOf : Option REntry → List REntry → Option REntry
  | cur, [] => cur
  | Option.none, e :: rest => bestOf (some e) rest
  | some c, e :: rest => bestOf (some (if c.score < e.score then e else c)) rest

/-- keyFind after an update at the same key. -/
theorem keyFind_keyUpdate_self (m : List (PyKey × REntry)) (k : PyKey) (v : REntry) :
    keyFind (keyUpdate m k v) k = some v := by
  induction m with
  | nil => simp [keyUpdate, keyFind]
  | cons p rest ih =>
    rcases p with ⟨k', v'⟩
    unfold keyUpdate
    by_cases hk : k = k'
    · rw [if_pos hk]
      simp [keyFind]
    · rw [if_neg hk]
      unfold keyFind
      rw [if_neg hk]
      exact ih

/-- keyFind after an update at a different key. -/
theorem keyFind_keyUpdate_ne (m : List (PyKey × REntry)) (k k2 : PyKey) (v : REntry)
    (hne : k2 ≠ k) : keyFind (keyUpdate m k v) k2 = keyFind m k2 := by
  induction m with
  | nil => simp [keyUpdate, keyFind, hne]
  | cons p rest ih =>
    rcases p with ⟨k', v'⟩
    unfold keyUpdate
    by_cases hk : k = k'
    · rw [if_pos hk]
      subst hk
      unfold keyFind
      rw [if_neg hne, if_neg hne]
    · rw [if_neg hk]
      unfold keyFind
      by_cases h2 : k2 = k'
      · rw [if_pos h2, if_pos h2]
      · rw [if_neg h2, if_neg h2]
        exact ih

/-- keyFind over an appended fresh binding, at that key. -/
theorem keyFind_append_self (m : List (PyKey × REntry)) (k : PyKey) (v : REntry)
    (h : keyFind m k = Option.none) : keyFind (m ++ [(k, v)]) k = some v := by
  induction m with
  | nil => simp [keyFind]
  | cons p rest ih =>
    rcases p with ⟨k', v'⟩
    rw [List.cons_append]
    simp only [keyFind] at h ⊢
    by_cases hk : k = k'
    · rw [if_pos hk] at h
      cases h
    · rw [if_neg hk] at h ⊢
      exact ih h

/-- keyFind over an appended binding, at another key. -/
theorem keyFind_append_ne (m : List (PyKey × REntry)) (k k2 : PyKey) (v : REntry)
    (hne : k2 ≠ k) : keyFind (m ++ [(k, v)]) k2 = keyFind m k2 := by
  induction m with
  | nil => simp [keyFind, hne]
  | cons p rest ih =>
    rcases p with ⟨k', v'⟩
    rw [List.cons_append]
    simp only [keyFind]
    by_cases h2 : k2 = k'
    · simp [h2]
    · rw [if_neg h2, if_neg h2]
      exact ih

/-- A key is absent from the map iff keyFind misses. -/
theorem keyFind_eq_none_iff (m : List (PyKey × REntry)) (k : PyKey) :
    keyFind m k = Option.none ↔ k ∉ m.map Prod.fst := by
  induction m with
  | nil => simp [keyFind]
  | cons p rest ih =>
    rcases p with ⟨k', v'⟩
    unfold keyFind
    by_cases hk : k = k'
    · rw [if_pos hk]
      simp [hk]
    · rw [if_neg hk]
      simp [hk, ih]

/-- With distinct keys, membership determines keyFind. -/
theorem keyFind_of_mem (m : List (PyKey × REntry)) (k : PyKey) (v : REntry)
    (hmem : (k, v) ∈ m) (hnd : (m.map Prod.fst).Nodup) : keyFind m k = some v := by
  induction m with
  | nil => cases hmem
  | cons p rest ih =>
    rcases p with ⟨k', v'⟩
    rw [List.map_cons, List.nodup_cons] at hnd
    unfold keyFind
    rcases List.mem_cons.1 hmem with h | h
    · injection h with h1 h2
      subst h1; subst h2
      rw [if_pos rfl]
    · by_cases hk : k = k'
      · subst hk
        exact absurd (List.mem_map_of_mem Prod.fst h) hnd.1
      · rw [if_neg hk]
        exact ih h hnd.2

/-- Updating an existing key does not change the key list, and every
binding is either the new one or an old one. -/
theorem keyUpdate_mem (m : List (PyKey × REntry)) (k : PyKey) (v : REntry) (ex : REntry)
    (hfound : keyFind m k = some ex) :
    (keyUpdate m k v).map Prod.fst = m.map Prod.fst ∧
    ∀ p ∈ keyUpdate m k v, p = (k, v) ∨ p ∈ m := by
  induction m with
  | nil => cases hfound
  | cons q rest ih =>
    rcases q with ⟨k', v'⟩
    unfold keyFind at hfound
    unfold keyUpdate
    by_cases hk : k = k'
    · rw [if_pos hk] at hfound ⊢
      subst hk
      constructor
      · simp
      · intro p hp
        rcases List.mem_cons.1 hp with rfl | hp
        · exact Or.inl rfl
        · exact Or.inr (List.mem_cons_of_mem _ hp)
    · rw [if_neg hk] at hfound ⊢
      obtain ⟨ih1, ih2⟩ := ih hfound
      constructor
      · simp [ih1]
      · intro p hp
        rcases List.mem_cons.1 hp with rfl | hp
        · exact Or.inr (List.mem_cons_self _ _)
        · rcases ih2 p hp with h | h
          · exact Or.inl h
          · exact Or.inr (List.mem_cons_of_mem _ h)

/-- Boolean negation of a hypothesis. -/
theorem bool_not_true {b : Bool} (h : ¬ b = true) : b = false := by
  cases b
  · rfl
  · exact absurd rfl h

/-- The dedupe fold computes, per key, the first-seen maximal-score entry:
its map lookup equals the strictly-greater fold of the entries carrying
that key. -/
theorem dedupeFold_lookup (k : PyKey) :
    ∀ (l : List REntry) (m : List (PyKey × REntry)) (fb : List REntry)
      (m2 : List (PyKey × REntry)) (fb2 : List REntry),
      dedupeFold l (m, fb) = .ok (m2, fb2) →
      keyFind m2 k = bestOf (keyFind m k) (l.filter (isFor k))
  | [], m, fb, m2, fb2, h => by
    unfold dedupeFold at h
    injection h with h
    injection h with h1 h2
    subst h1
    cases keyFind m k <;> rfl
  | e :: rest, m, fb, m2, fb2, h => by
    unfold dedupeFold dedupeStep at h
    by_cases ht : pyTruthy e.product_url = true
    · rw [if_pos ht] at h
      cases hk : toKey e.product_url with
      | none =>
        simp only [hk] at h
        exact Except.noConfusion h
      | some ke =>
        simp only [hk] at h
        cases hf : keyFind m ke with
        | none =>
          simp only [hf] at h
          have ih := dedupeFold_lookup k rest (m ++ [(ke, e)]) fb m2 fb2 h
          by_cases hke : k = ke
          · subst hke
            rw [List.filter_cons_of_pos (by simp [isFor, ht, hk])]
            rw [ih, keyFind_append_self m k e hf, hf]
            rfl
          · rw [List.filter_cons_of_neg (by simp [isFor, hk, Ne.symm hke])]
            rw [ih, keyFind_append_ne m ke k e hke]
        | some ex =>
          simp only [hf] at h
          by_cases hs : ex.score < e.score
          · rw [if_pos hs] at h
            have ih := dedupeFold_lookup k rest (keyUpdate m ke e) fb m2 fb2 h
            by_cases hke : k = ke
            · subst hke
              rw [List.filter_cons_of_pos (by simp [isFor, ht, hk])]
              rw [ih, keyFind_keyUpdate_self, hf]
              simp only [bestOf, if_pos hs]
            · rw [List.filter_cons_of_neg (by simp [isFor, hk, Ne.symm hke])]
              rw [ih, keyFind_keyUpdate_ne m ke k e hke]
          · rw [if_neg hs] at h
            have ih := dedupeFold_lookup k rest m fb m2 fb2 h
            by_cases hke : k = ke
            · subst hke
              rw [List.filter_cons_of_pos (by simp [isFor, ht, hk])]
              rw [ih, hf]
              simp only [bestOf, if_neg hs]
            · rw [List.filter_cons_of_neg (by simp [isFor, hk, Ne.symm hke])]
              rw [ih]
    · rw [if_neg ht] at h
      have ih := dedupeFold_lookup k rest m (fb ++ [e]) m2 fb2 h
      rw [List.filter_cons_of_neg (by simp [isFor, bool_not_true ht])]
      exact ih

/-- The strictly-greater fold keeps the first-seen maximum: the result is a
member, dominates every candidate, and is the first candidate of maximal
score. -/
theorem bestOf_spec : ∀ (fl : List REntry) (c e : REntry), bestOf (some c) fl = some e →
    (e = c ∨ e ∈ fl) ∧ (∀ d, (d = c ∨ d ∈ fl) → d.score ≤ e.score) ∧
    (c :: fl).find? (fun d => decide (e.score ≤ d.score)) = some e
  | [], c, e, h => by
    unfold bestOf at h
    injection h with h
    subst h
    refine ⟨Or.inl rfl, ?_, ?_⟩
    · rintro d (rfl | hd)
      · exact le_refl _
      · cases hd
    · rw [List.find?_cons_of_pos _ (by simp)]
  | f :: fl, c, e, h => by
    unfold bestOf at h
    by_cases hcf : c.score < f.score
    · rw [if_pos hcf] at h
      obtain ⟨hmem, hmax, hfind⟩ := bestOf_spec fl f e h
      have hfe : f.score ≤ e.score := hmax f (Or.inl rfl)
      refine ⟨?_, ?_, ?_⟩
      · rcases hmem with rfl | hm
        · exact Or.inr (List.mem_cons_self _ _)
        · exact Or.inr (List.mem_cons_of_mem _ hm)
      · rintro d (rfl | hd)
        · exact le_of_lt (lt_of_lt_of_le hcf hfe)
        · rcases List.mem_cons.1 hd with rfl | hd
          · exact hfe
          · exact hmax d (Or.inr hd)
      · rw [List.find?_cons_of_neg]
        · exact hfind
        · simp only [decide_eq_true_eq]
          intro hc
          exact absurd (lt_of_lt_of_le hcf hfe) (not_lt.2 hc)
    · rw [if_neg hcf] at h
      obtain ⟨hmem, hmax, hfind⟩ := bestOf_spec fl c e h
      have hfc : f.score ≤ c.score := not_lt.1 hcf
      have hce : c.score ≤ e.score := hmax c (Or.inl rfl)
      refine ⟨?_, ?_, ?_⟩
      · rcases hmem with rfl | hm
        · exact Or.inl rfl
        · exact Or.inr (List.mem_cons_of_mem _ hm)
      · rintro d (rfl | hd)
        · exact hce
        · rcases List.mem_cons.1 hd with rfl | hd
          · exact le_trans hfc hce
          · exact hmax d (Or.inr hd)
      · by_cases hp : e.score ≤ c.score
        · rw [List.find?_cons_of_pos _ (by simp [hp])] at hfind
          injection hfind with hfind
          subst hfind
          rw [List.find?_cons_of_pos _ (by simp [hp])]
        · rw [List.find?_cons_of_neg _ (by simpa using hp)] at hfind
          rw [List.find?_cons_of_neg _ (by simpa using hp)]
          rw [List.find?_cons_of_neg]
          · exact hfind
          · simp only [decide_eq_true_eq]
            intro hc
            exact hp (le_trans hc hfc)

/-- Invariants of the dedupe fold: map bindings carry their own truthy url
key, the key list stays duplicate-free, and the fallback list collects only
url-less entries. -/
theorem dedupeFold_map_inv :
    ∀ (l : List REntry) (m : List (PyKey × REntry)) (fb : List REntry)
      (m2 : List (PyKey × REntry)) (fb2 : List REntry),
      dedupeFold l (m, fb) = .ok (m2, fb2) →
      (∀ p ∈ m, toKey p.2.product_url = some p.1 ∧ pyTruthy p.2.product_url = true) →
      (m.map Prod.fst).Nodup →
      (∀ p ∈ m2, toKey p.2.product_url = some p.1 ∧ pyTruthy p.2.product_url = true) ∧
      (m2.map Prod.fst).Nodup ∧
      ∀ x ∈ fb2, x ∈ fb ∨ pyTruthy x.product_url = false
  | [], m, fb, m2, fb2, h, hinv, hnd => by
    unfold dedupeFold at h
    injection h with h
    injection h with h1 h2
    subst h1
    subst h2
    exact ⟨hinv, hnd, fun x hx => Or.inl hx⟩
  | e :: rest, m, fb, m2, fb2, h, hinv, hnd => by
    unfold dedupeFold dedupeStep at h
    by_cases ht : pyTruthy e.product_url = true
    · rw [if_pos ht] at h
      cases hk : toKey e.product_url with
      | none =>
        simp only [hk] at h
        exact Except.noConfusion h
      | some ke =>
        simp only [hk] at h
        cases hf : keyFind m ke with
        | none =>
          simp only [hf] at h
          refine dedupeFold_map_inv rest (m ++ [(ke, e)]) fb m2 fb2 h ?_ ?_
          · intro p hp
            rcases List.mem_append.1 hp with hp | hp
            · exact hinv p hp
            · rw [List.mem_singleton.1 hp]
              exact ⟨hk, ht⟩
          · rw [List.map_append]
            simp only [List.map_cons, List.map_nil]
            rw [List.nodup_append]
            refine ⟨hnd, List.nodup_singleton ke, ?_⟩
            intro a ha hb
            rw [List.mem_singleton.1 hb] at ha
            exact (keyFind_eq_none_iff m ke).1 hf ha
        | some ex =>
          simp only [hf] at h
          by_cases hs : ex.score < e.score
          · rw [if_pos hs] at h
            obtain ⟨hkeys, hmem⟩ := keyUpdate_mem m ke e ex hf
            refine dedupeFold_map_inv rest (keyUpdate m ke e) fb m2 fb2 h ?_ ?_
            · intro p hp
              rcases hmem p hp with rfl | hp
              · exact ⟨hk, ht⟩
              · exact hinv p hp
            · rw [hkeys]
              exact hnd
          · rw [if_neg hs] at h
            exact dedupeFold_map_inv rest m fb m2 fb2 h hinv hnd
    · rw [if_neg ht] at h
      obtain ⟨h1, h2, h3⟩ := dedupeFold_map_inv rest m (fb ++ [e]) m2 fb2 h hinv hnd
      refine ⟨h1, h2, fun x hx => ?_⟩
      rcases h3 x hx with hx2 | hx2
      · rcases List.mem_append.1 hx2 with hx3 | hx3
        · exact Or.inl hx3
        · rw [List.mem_singleton.1 hx3]
          exact Or.inr (bool_not_true ht)
      · exact Or.inr hx2

/-- On входa whose truthy-url entries carry pairwise distinct keys all fresh
for the map, the dedupe fold collapses nothing: the map gains exactly the
truthy-url entries in order and the fallback list the rest in order. -/
theorem dedupeFold_fresh :
    ∀ (l : List REntry) (m : List (PyKey × REntry)) (fb : List REntry),
      (∀ e ∈ l, pyTruthy e.product_url = true →
        ∃ ke, toKey e.product_url = some ke ∧ keyFind m ke = Option.none) →
      l.Pairwise (fun a b => pyTruthy a.product_url = true → pyTruthy b.product_url = true →
        toKey a.product_url ≠ toKey b.product_url) →
      ∃ m2, dedupeFold l (m, fb) = .ok (m2, fb ++ l.filter (fun e => !pyTruthy e.product_url)) ∧
        m2.map Prod.snd = m.map Prod.snd ++ l.filter (fun e => pyTruthy e.product_url)
  | [], m, fb, hfresh, hpw => ⟨m, by simp [dedupeFold], by simp⟩
  | e :: rest, m, fb, hfresh, hpw => by
    rw [List.pairwise_cons] at hpw
    obtain ⟨hpw1, hpw2⟩ := hpw
    by_cases ht : pyTruthy e.product_url = true
    · obtain ⟨ke, hke, hkf⟩ := hfresh e (List.mem_cons_self _ _) ht
      have hfresh2 : ∀ x ∈ rest, pyTruthy x.product_url = true →
          ∃ kx, toKey x.product_url = some kx ∧ keyFind (m ++ [(ke, e)]) kx = Option.none := by
        intro x hx htx
        obtain ⟨kx, hkx, hkfx⟩ := hfresh x (List.mem_cons_of_mem _ hx) htx
        refine ⟨kx, hkx, ?_⟩
        rw [keyFind_append_ne m ke kx e ?_]
        · exact hkfx
        · intro hEq
          subst hEq
          exact (hpw1 x hx ht htx) (by rw [hke, hkx])
      obtain ⟨m2, hm2, hvals⟩ := dedupeFold_fresh rest (m ++ [(ke, e)]) fb hfresh2 hpw2
      refine ⟨m2, ?_, ?_⟩
      · unfold dedupeFold dedupeStep
        rw [if_pos ht]
        dsimp only
        simp only [hke, hkf]
        rw [hm2]
        rw [List.filter_cons_of_neg (by simp [ht])]
      · rw [hvals, List.map_append]
        simp only [List.map_cons, List.map_nil]
        rw [List.filter_cons_of_pos (by simp [ht])]
        simp
    · obtain ⟨m2, hm2, hvals⟩ := dedupeFold_fresh rest m (fb ++ [e])
        (fun x hx htx => hfresh x (List.mem_cons_of_mem _ hx) htx) hpw2
      refine ⟨m2, ?_, ?_⟩
      · unfold dedupeFold dedupeStep
        rw [if_neg ht]
        dsimp only
        rw [hm2]
        rw [List.filter_cons_of_pos (by simp [bool_not_true ht])]
        simp
      · rw [hvals]
        rw [List.filter_cons_of_neg (by simp [bool_not_true ht])]

/-! ### Theorems: stability of the ranking step (C5) -/

/-- Class coherence of the output: within an equal-score class, url-keyed
entries precede fallback entries (produced by sorting the concatenation
keyed-first). -/
def prec (a b : REntry) : Prop :=
  pyTruthy a.product_url = false → pyTruthy b.product_url = true → b.score < a.score

instance : DecidableRel prec := fun a b => by
  unfold prec
  infer_instance

/-- A list of url-less entries is trivially class-coherent. -/
theorem pairwise_prec_of_all_falsy (l : List REntry)
    (h : ∀ x ∈ l, pyTruthy x.product_url = false) : l.Pairwise prec := by
  induction l with
  | nil => exact List.Pairwise.nil
  | cons a rest ih =>
    refine List.Pairwise.cons (fun b hb h1 h2 => ?_) (ih (fun x hx => h x (List.mem_cons_of_mem _ hx)))
    rw [h b (List.mem_cons_of_mem _ hb)] at h2
    cases h2

/-- Inserting a url-keyed entry preserves class coherence. -/
theorem orderedInsert_prec (u : REntry) (hu : pyTruthy u.product_url = true) :
    ∀ (l : List REntry), l.Pairwise prec → (l.orderedInsert scoreGe u).Pairwise prec
  | [], _ => List.pairwise_singleton prec u
  | b :: t, hpw => by
    rw [List.pairwise_cons] at hpw
    obtain ⟨hb, ht⟩ := hpw
    unfold List.orderedInsert
    by_cases hr : scoreGe u b
    · rw [if_pos hr]
      refine List.Pairwise.cons (fun y hy h1 h2 => ?_) (List.Pairwise.cons hb ht)
      rw [hu] at h1
      cases h1
    · rw [if_neg hr]
      refine List.Pairwise.cons (fun y hy => ?_) (orderedInsert_prec u hu t ht)
      rcases (List.mem_orderedInsert scoreGe).1 hy with rfl | hy
      · intro _ _
        exact lt_of_not_le hr
      · exact hb y hy
    
/-- Sorting keyed entries followed by fallback entries yields a
class-coherent list. -/
theorem insertionSort_prec (fs : List REntry) (hfs : ∀ x ∈ fs, pyTruthy x.product_url = false) :
    ∀ (us : List REntry), (∀ x ∈ us, pyTruthy x.product_url = true) →
      (List.insertionSort scoreGe (us ++ fs)).Pairwise prec
  | [], _ => by
    refine pairwise_prec_of_all_falsy _ (fun x hx => ?_)
    rw [List.mem_insertionSort] at hx
    exact hfs x (by simpa using hx)
  | u :: us, hus => by
    rw [List.cons_append, List.insertionSort]
    exact orderedInsert_prec u (hus u (List.mem_cons_self _ _)) _
      (insertionSort_prec fs hfs us (fun x hx => hus x (List.mem_cons_of_mem _ hx)))

/-- The left-preferring merge by descending score. -/
def mergeScore : List REntry → List REntry → List REntry
  | [], fs => fs
  | us, [] => us
  | u :: us, f :: fs =>
    if f.score ≤ u.score then u :: mergeScore us (f :: fs) else f :: mergeScore (u :: us) fs
termination_by us fs => us.length + fs.length

/-- Merging with an empty right side is the identity. -/
theorem mergeScore_nil (us : List REntry) : mergeScore us [] = us := by
  cases us with
  | nil => rw [mergeScore]
  | cons u us2 => simp [mergeScore]

/-- A head dominating the whole right side commutes out of the merge. -/
theorem mergeScore_cons_left (a : REntry) (X Y : List REntry)
    (h : ∀ f ∈ Y, f.score ≤ a.score) : mergeScore (a :: X) Y = a :: mergeScore X Y := by
  cases Y with
  | nil => rw [mergeScore_nil, mergeScore_nil]
  | cons f Y2 =>
    rw [mergeScore, if_pos (h f (List.mem_cons_self _ _))]

/-- A right head strictly dominating the whole left side commutes out of
the merge. -/
theorem mergeScore_cons_right (f : REntry) (us fs : List REntry)
    (h : ∀ x ∈ us, ¬ (f.score ≤ x.score)) : mergeScore us (f :: fs) = f :: mergeScore us fs := by
  cases us with
  | nil => rw [mergeScore, mergeScore]
  | cons u us2 =>
    rw [mergeScore, if_neg (h u (List.mem_cons_self _ _))]

/-- Merge produces no new elements. -/
theorem mergeScore_mem : ∀ (us fs : List REntry) (x : REntry),
    x ∈ mergeScore us fs → x ∈ us ∨ x ∈ fs
  | [], fs, x, h => by
    rw [mergeScore] at h
    exact Or.inr h
  | u :: us, [], x, h => by
    rw [mergeScore_nil] at h
    exact Or.inl h
  | u :: us, f :: fs, x, h => by
    rw [mergeScore] at h
    by_cases hle : f.score ≤ u.score
    · rw [if_pos hle] at h
      rcases List.mem_cons.1 h with rfl | h
      · exact Or.inl (List.mem_cons_self _ _)
      · rcases mergeScore_mem us (f :: fs) x h with h | h
        · exact Or.inl (List.mem_cons_of_mem _ h)
        · exact Or.inr h
    · rw [if_neg hle] at h
      rcases List.mem_cons.1 h with rfl | h
      · exact Or.inr (List.mem_cons_self _ _)
      · rcases mergeScore_mem (u :: us) fs x h with h | h
        · exact Or.inl h
        · exact Or.inr (List.mem_cons_of_mem _ h)
termination_by us fs => us.length + fs.length

/-- Inserting the dominating head of the left list into a merge prepends
it. -/
theorem orderedInsert_mergeScore (u : REntry) (us : List REntry)
    (hsort : List.Sorted scoreGe (u :: us)) :
    ∀ (fs : List REntry), List.Sorted scoreGe fs →
      (mergeScore us fs).orderedInsert scoreGe u = mergeScore (u :: us) fs
  | [], _ => by
    rw [mergeScore_nil, mergeScore_nil]
    cases us with
    | nil => rfl
    | cons u2 us2 =>
      unfold List.orderedInsert
      rw [if_pos (List.rel_of_sorted_cons hsort u2 (List.mem_cons_self _ _))]
  | f :: fs2, hfs => by
    by_cases hle : f.score ≤ u.score
    · rw [mergeScore_cons_left u us (f :: fs2) ?hdom]
      case hdom =>
        intro g hg
        rcases List.mem_cons.1 hg with rfl | hg
        · exact hle
        · exact le_trans (List.rel_of_sorted_cons hfs g hg) hle
      cases hm : mergeScore us (f :: fs2) with
      | nil => rfl
      | cons h t =>
        unfold List.orderedInsert
        rw [if_pos ?hgoal]
        case hgoal =>
          rcases mergeScore_mem us (f :: fs2) h (hm ▸ List.mem_cons_self h t) with hh | hh
          · exact List.rel_of_sorted_cons hsort h hh
          · rcases List.mem_cons.1 hh with rfl | hh
            · exact hle
            · exact le_trans (List.rel_of_sorted_cons hfs h hh) hle
    · have hstrict : ∀ x ∈ u :: us, ¬ (f.score ≤ x.score) := by
        intro x hx
        rcases List.mem_cons.1 hx with rfl | hx
        · exact hle
        · intro hc
          exact hle (le_trans hc (List.rel_of_sorted_cons hsort x hx))
      rw [mergeScore_cons_right f (u :: us) fs2 hstrict]
      rw [mergeScore_cons_right f us fs2
        (fun x hx => hstrict x (List.mem_cons_of_mem _ hx))]
      unfold List.orderedInsert
      rw [if_neg (show ¬ scoreGe u f from hle)]
      rw [orderedInsert_mergeScore u us hsort fs2 hfs.of_cons]

/-- Insertion sort of a sorted-concatenation is the left-preferring merge
(the extensional form of sort stability used here). -/
theorem insertionSort_append_merge : ∀ (us fs : List REntry),
    List.Sorted scoreGe us → List.Sorted scoreGe fs →
    List.insertionSort scoreGe (us ++ fs) = mergeScore us fs
  | [], fs, _, hfs => by
    rw [List.nil_append, List.Sorted.insertionSort_eq hfs, mergeScore]
  | u :: us, fs, hus, hfs => by
    rw [List.cons_append, List.insertionSort,
        insertionSort_append_merge us fs hus.of_cons hfs,
        orderedInsert_mergeScore u us hus fs hfs]

/-- A sorted, class-coherent list is recovered by merging its keyed and
fallback sublists. -/
theorem mergeScore_filter (T : List REntry) (hs : List.Sorted scoreGe T)
    (hp : T.Pairwise prec) :
    mergeScore (T.filter (fun e => pyTruthy e.product_url))
      (T.filter (fun e => !pyTruthy e.product_url)) = T := by
  induction T with
  | nil => rw [List.filter_nil, List.filter_nil, mergeScore]
  | cons a T2 ih =>
    by_cases hpa : pyTruthy a.product_url = true
    · rw [List.filter_cons_of_pos (by simp [hpa]), List.filter_cons_of_neg (by simp [hpa])]
      rw [mergeScore_cons_left a _ _
        (fun f hf => List.rel_of_sorted_cons hs f (List.mem_of_mem_filter hf))]
      rw [ih hs.of_cons (List.pairwise_cons.1 hp).2]
    · rw [List.filter_cons_of_neg (by simp [bool_not_true hpa]),
          List.filter_cons_of_pos (by simp [bool_not_true hpa])]
      rw [mergeScore_cons_right a _ _ ?hstrict]
      case hstrict =>
        intro x hx
        rw [List.mem_filter] at hx
        exact not_le.2 ((List.pairwise_cons.1 hp).1 x hx.1 (bool_not_true hpa) hx.2)
      rw [ih hs.of_cons (List.pairwise_cons.1 hp).2]

/-- The trivial pairwise relation. -/
theorem pairwise_true (l : List REntry) : l.Pairwise (fun _ _ => True) := by
  induction l with
  | nil => exact List.Pairwise.nil
  | cons a r ih => exact List.Pairwise.cons (fun _ _ => trivial) ih

/-- C5: the dedupe-by-URL / combine (keyed first, fallback appended) /
stable sort by score descending / truncate pipeline is idempotent: applied
to its own output it returns that output unchanged. -/
theorem normalize_pipeline_idempotent (entries : List REntry) (limit : ℕ) (out : List REntry)
    (hok : normalizePipeline entries limit = .ok out) :
    normalizePipeline out limit = .ok out := by
  unfold normalizePipeline at hok ⊢
  cases hfold : dedupeFold entries ([], []) with
  | error e =>
    rw [hfold] at hok
    exact Except.noConfusion hok
  | ok st =>
    rcases st with ⟨m, fb⟩
    rw [hfold] at hok
    injection hok with hok
    obtain ⟨hinv, hnd, hfb⟩ := dedupeFold_map_inv entries [] [] m fb hfold
      (by intro p hp; cases hp) (by simp)
    have hfb2 : ∀ x ∈ fb, pyTruthy x.product_url = false := by
      intro x hx
      rcases hfb x hx with h | h
      · cases h
      · exact h
    have hvalsT : ∀ x ∈ m.map Prod.snd, pyTruthy x.product_url = true := by
      intro x hx
      rw [List.mem_map] at hx
      obtain ⟨p, hp, rfl⟩ := hx
      exact (hinv p hp).2
    subst hok
    have hsortS : List.Sorted scoreGe (List.insertionSort scoreGe (m.map Prod.snd ++ fb)) :=
      List.sorted_insertionSort scoreGe _
    have hsortO : List.Sorted scoreGe ((List.insertionSort scoreGe (m.map Prod.snd ++ fb)).take limit) :=
      List.Pairwise.sublist (List.take_sublist _ _) hsortS
    have hprecS : (List.insertionSort scoreGe (m.map Prod.snd ++ fb)).Pairwise prec :=
      insertionSort_prec fb hfb2 (m.map Prod.snd) hvalsT
    have hprecO : ((List.insertionSort scoreGe (m.map Prod.snd ++ fb)).take limit).Pairwise prec :=
      List.Pairwise.sublist (List.take_sublist _ _) hprecS
    have hkdm : m.Pairwise (fun p q => (p.1 : PyKey) ≠ q.1) := by
      have := hnd
      rw [List.Nodup, List.pairwise_map] at this
      exact this
    have hkdApp : (m.map Prod.snd ++ fb).Pairwise
        (fun a b => pyTruthy a.product_url = true → pyTruthy b.product_url = true →
          toKey a.product_url ≠ toKey b.product_url) := by
      rw [List.pairwise_append]
      refine ⟨?_, ?_, ?_⟩
      · rw [List.pairwise_map]
        refine List.Pairwise.imp_of_mem ?_ hkdm
        intro p q hp hq hne h1 h2 hEq
        rw [(hinv p hp).1, (hinv q hq).1] at hEq
        injection hEq with hEq
        exact hne hEq
      · refine List.Pairwise.imp_of_mem ?_ (pairwise_true fb)
        intro a b ha hb _ h1 h2
        rw [hfb2 b hb] at h2
        cases h2
      · intro a ha b hb h1 h2
        rw [hfb2 b hb] at h2
        cases h2
    have hkdS : (List.insertionSort scoreGe (m.map Prod.snd ++ fb)).Pairwise
        (fun a b => pyTruthy a.product_url = true → pyTruthy b.product_url = true →
          toKey a.product_url ≠ toKey b.product_url) := by
      refine ((List.perm_insertionSort scoreGe _).pairwise_iff ?_).2 hkdApp
      intro x y hxy h1 h2 hEq
      exact hxy h2 h1 hEq.symm
    have hkdO : ((List.insertionSort scoreGe (m.map Prod.snd ++ fb)).take limit).Pairwise
        (fun a b => pyTruthy a.product_url = true → pyTruthy b.product_url = true →
          toKey a.product_url ≠ toKey b.product_url) :=
      List.Pairwise.sublist (List.take_sublist _ _) hkdS
    have hkeyO : ∀ e ∈ (List.insertionSort scoreGe (m.map Prod.snd ++ fb)).take limit,
        pyTruthy e.product_url = true →
        ∃ ke, toKey e.product_url = some ke ∧
          keyFind ([] : List (PyKey × REntry)) ke = Option.none := by
      intro e he htr
      have heS := (List.take_sublist limit _).subset he
      rw [List.mem_insertionSort] at heS
      rcases List.mem_append.1 heS with h | h
      · rw [List.mem_map] at h
        obtain ⟨p, hp, rfl⟩ := h
        exact ⟨p.1, (hinv p hp).1, rfl⟩
      · rw [hfb2 e h] at htr
        cases htr
    obtain ⟨m2, hm2, hvals2⟩ := dedupeFold_fresh
      ((List.insertionSort scoreGe (m.map Prod.snd ++ fb)).take limit) [] [] hkeyO hkdO
    unfold rankTruncate
    rw [hm2]
    dsimp only
    rw [hvals2]
    simp only [List.map_nil, List.nil_append]
    rw [insertionSort_append_merge _ _ (List.Pairwise.filter _ hsortO) (List.Pairwise.filter _ hsortO)]
    rw [mergeScore_filter _ hsortO hprecO]
    rw [List.take_take, min_self]

/-- A two-duplicates-plus-fallback input for the C5 witness. -/
def c5entries : List REntry :=
  [⟨"1", .none, .none, .none, .str "https://s.ex/a", .none, 1⟩,
   ⟨"2", .none, .none, .none, .str "https://s.ex/a", .none, 3⟩,
   ⟨"3", .none, .none, .none, .none, .none, 2⟩]

/-- The pipeline output for the C5 witness input. -/
def c5out : List REntry :=
  [⟨"2", .none, .none, .none, .str "https://s.ex/a", .none, 3⟩,
   ⟨"3", .none, .none, .none, .none, .none, 2⟩]

theorem normalize_pipeline_idempotent_witness :
    normalizePipeline c5entries 5 = .ok c5out ∧
    normalizePipeline c5out 5 = .ok c5out :=
  ⟨rfl, normalize_pipeline_idempotent c5entries 5 c5out rfl⟩

/-- A truthy string url cannot be the empty string. -/
theorem truthy_str_ne (u : String) (h : pyTruthy (.str u) = false) : u = "" := by
  simpa [pyTruthy] using h

/-- C4: in the final result list of the normalization engine no two entries
carry the same non-empty canonical URL, and every result entry carrying a
non-empty canonical URL is one of the normalized entries with that URL,
dominates all of them in score, and is the first of them attaining that
score (a strict tie keeps the first-seen entry). -/
theorem search_dedupe_collapses_by_url (resp : PyVal) (limit : ℕ) (out : List REntry)
    (raw : List PyVal) (entries : List REntry)
    (hraw : pyIter (extract_points resp) = .ok raw)
    (hentries : raw.mapM point_to_dict = .ok entries)
    (hok : normalizeResponse resp limit = .ok out) :
    out.Pairwise (fun a b => ∀ u : String, u ≠ "" →
      a.product_url = .str u → b.product_url ≠ .str u) ∧
    ∀ e ∈ out, ∀ u : String, u ≠ "" → e.product_url = .str u →
      e ∈ entries.filter (isFor (.str u)) ∧
      (∀ d ∈ entries.filter (isFor (.str u)), d.score ≤ e.score) ∧
      (entries.filter (isFor (.str u))).find? (fun d => decide (e.score ≤ d.score)) = some e := by
  unfold normalizeResponse at hok
  rw [hraw] at hok
  dsimp only at hok
  rw [hentries] at hok
  dsimp only at hok
  unfold normalizePipeline at hok
  cases hfold : dedupeFold entries ([], []) with
  | error e =>
    rw [hfold] at hok
    exact Except.noConfusion hok
  | ok st =>
    rcases st with ⟨m, fb⟩
    rw [hfold] at hok
    injection hok with hok
    subst hok
    obtain ⟨hinv, hnd, hfb⟩ := dedupeFold_map_inv entries [] [] m fb hfold
      (by intro p hp; cases hp) (by simp)
    have hfb2 : ∀ x ∈ fb, pyTruthy x.product_url = false := by
      intro x hx
      rcases hfb x hx with h | h
      · cases h
      · exact h
    constructor
    · have hkdm : m.Pairwise (fun p q => (p.1 : PyKey) ≠ q.1) := by
        have h2 := hnd
        rw [List.Nodup, List.pairwise_map] at h2
        exact h2
      have hRapp : (m.map Prod.snd ++ fb).Pairwise (fun a b => ∀ u : String, u ≠ "" →
          a.product_url = .str u → b.product_url ≠ .str u) := by
        rw [List.pairwise_append]
        refine ⟨?_, ?_, ?_⟩
        · rw [List.pairwise_map]
          refine List.Pairwise.imp_of_mem ?_ hkdm
          intro p q hp hq hne u hu hpu hqu
          have h1 := (hinv p hp).1
          have h2 := (hinv q hq).1
          rw [hpu] at h1
          rw [hqu] at h2
          have h1b : some (PyKey.str u) = some p.1 := h1
          have h2b : some (PyKey.str u) = some q.1 := h2
          injection h1b with h1b
          injection h2b with h2b
          exact hne (h1b ▸ h2b)
        · refine List.Pairwise.imp_of_mem ?_ (pairwise_true fb)
          intro a b ha hb _ u hu hau hbu
          have := hfb2 b hb
          rw [hbu] at this
          exact hu (truthy_str_ne u this)
        · intro a ha b hb u hu hau hbu
          have := hfb2 b hb
          rw [hbu] at this
          exact hu (truthy_str_ne u this)
      have hsymm : ∀ {x y : REntry},
          (∀ u : String, u ≠ "" → x.product_url = .str u → y.product_url ≠ .str u) →
          ∀ u : String, u ≠ "" → y.product_url = .str u → x.product_url ≠ .str u := by
        intro x y hxy u hu hyu hxu
        exact hxy u hu hxu hyu
      have hRS := ((List.perm_insertionSort scoreGe (m.map Prod.snd ++ fb)).pairwise_iff
        hsymm).2 hRapp
      unfold rankTruncate
      exact List.Pairwise.sublist (List.take_sublist _ _) hRS
    · intro e he u hu hurl
      have heS := (List.take_sublist limit _).subset he
      rw [List.mem_insertionSort] at heS
      rcases List.mem_append.1 heS with hv | hf
      · rw [List.mem_map] at hv
        obtain ⟨p, hp, hpe⟩ := hv
        rcases p with ⟨k, v⟩
        have hkeq : toKey v.product_url = some k := (hinv (k, v) hp).1
        have hveq : v = e := hpe
        subst hveq
        rw [hurl] at hkeq
        have hkeq2 : some (PyKey.str u) = some k := hkeq
        injection hkeq2 with hkeq2
        subst hkeq2
        have hkf : keyFind m (.str u) = some v := keyFind_of_mem m _ _ hp hnd
        have hlook := dedupeFold_lookup (.str u) entries [] [] m fb hfold
        rw [hkf] at hlook
        cases hfl : entries.filter (isFor (.str u)) with
        | nil =>
          rw [hfl] at hlook
          exact Option.noConfusion hlook
        | cons f fl2 =>
          rw [hfl] at hlook
          have hlook2 : bestOf (some f) fl2 = some v := hlook.symm
          obtain ⟨hmem, hmax, hfind⟩ := bestOf_spec fl2 f v hlook2
          refine ⟨?_, ?_, ?_⟩
          · rcases hmem with rfl | hm
            · exact List.mem_cons_self _ _
            · exact List.mem_cons_of_mem _ hm
          · intro d hd
            rcases List.mem_cons.1 hd with rfl | hd
            · exact hmax d (Or.inl rfl)
            · exact hmax d (Or.inr hd)
          · exact hfind
      · exfalso
        have := hfb2 e hf
        rw [hurl] at this
        exact hu (truthy_str_ne u this)

/-- A store response for the C4 witness: three scored points, two sharing a
canonical URL. -/
def c4resp : PyVal := .dict [("result", .list [
  .dict [("id", .str "1"), ("score", .num 1),
         ("payload", .dict [("product_url", .str "https://s.ex/a")])],
  .dict [("id", .str "2"), ("score", .num 3),
         ("payload", .dict [("product_url", .str "https://s.ex/a")])],
  .dict [("id", .str "3"), ("score", .num 2), ("payload", .dict [])]])]

/-- The raw point list carried by the C4 witness response. -/
def c4raw : List PyVal :=
  [.dict [("id", .str "1"), ("score", .num 1),
          ("payload", .dict [("product_url", .str "https://s.ex/a")])],
   .dict [("id", .str "2"), ("score", .num 3),
          ("payload", .dict [("product_url", .str "https://s.ex/a")])],
   .dict [("id", .str "3"), ("score", .num 2), ("payload", .dict [])]]

/-- The normalized entries of the C4 witness response. -/
def c4entries : List REntry :=
  [⟨"1", .none, .none, .none, .str "https://s.ex/a", .none, 1⟩,
   ⟨"2", .none, .none, .none, .str "https://s.ex/a", .none, 3⟩,
   ⟨"3", .none, .none, .none, .none, .none, 2⟩]

/-- The final result list of the C4 witness query. -/
def c4out : List REntry :=
  [⟨"2", .none, .none, .none, .str "https://s.ex/a", .none, 3⟩,
   ⟨"3", .none, .none, .none, .none, .none, 2⟩]

theorem search_dedupe_collapses_by_url_witness :
    normalizeResponse c4resp 5 = .ok c4out ∧
    (c4out.Pairwise (fun a b => ∀ u : String, u ≠ "" →
      a.product_url = .str u → b.product_url ≠ .str u) ∧
     ∀ e ∈ c4out, ∀ u : String, u ≠ "" → e.product_url = .str u →
      e ∈ c4entries.filter (isFor (.str u)) ∧
      (∀ d ∈ c4entries.filter (isFor (.str u)), d.score ≤ e.score) ∧
      (c4entries.filter (isFor (.str u))).find? (fun d => decide (e.score ≤ d.score)) = some e) :=
  ⟨rfl, search_dedupe_collapses_by_url c4resp 5 c4out c4raw c4entries rfl rfl rfl⟩
